import Mathlib

set_option maxRecDepth 100000

/-!
Verification development for the i3adc xrandr props parser.

The repository contains two snapshots of the recursive-descent parser for the
textual report of `xrandr --props` (`src/xrandr/parser.go`, and an unnamed
in-progress refactor of the same package), a hash helper over parsed outputs,
and an i3 event thread.  This file gives a shallow embedding of the parser of
`src/xrandr/parser.go` (the named snapshot, whose helper semantics are
internally coherent) at the token level, a byte-level lexer reconstructed from
the specification (the lexer source file is not part of the sources), and the
hash helper, and proves or refutes the specification claims against them.

Conventions:
* Go methods on `*Parser` become functions threading an explicit `PState`.
* Go `for` loops become fuel-indexed recursive functions; the fuel passed at
  each call site is the current token-list length plus a constant, which is
  always sufficient because every loop iteration that continues consumes at
  least one token.  Running out of fuel corresponds to the Go code looping
  forever at end of input and is a distinguished `stuck` outcome.
* Machine integers are modelled as `Nat`/`Int` with the explicit range checks
  performed by `strconv.ParseInt`/`ParseUint`; `strconv.ParseFloat` is
  modelled by the exact decimal value of the literal as a rational.
-/

/-- Modelled from the spec: token kinds (section 3).  The token/lexer
declarations of the xrandr package are not among the sources; the kinds are
taken from the specification and from the `TokenType…` constants the parser
uses. -/
inductive TokenType where
  | Name
  | IntValue
  | FloatValue
  | Punctuator
  | WhiteSpace
  | LineTerminator
  | EOF
  deriving Repr, DecidableEq

/-- Modelled from the spec: a classified lexical unit with 1-based source
position (section 3). -/
structure Token where
  type : TokenType
  literal : String
  line : Nat
  position : Nat
  deriving Repr, DecidableEq

/-- The token the lexer reports at end of input (returned repeatedly). -/
def eofToken : Token := ⟨TokenType.EOF, "", 0, 0⟩

/-- Modelled from the spec: pixel resolution `{width, height}` (section 3). -/
structure Resolution where
  width : Nat
  height : Nat
  deriving Repr, DecidableEq

instance : Inhabited Resolution := ⟨⟨0, 0⟩⟩

/-- Modelled from the spec: virtual-screen position, signed offsets
(section 3). -/
structure Position where
  offsetX : Int
  offsetY : Int
  deriving Repr, DecidableEq

instance : Inhabited Position := ⟨⟨0, 0⟩⟩

/-- Modelled from the spec: physical dimensions in millimetres (section 3). -/
structure Dimensions where
  width : Nat
  height : Nat
  deriving Repr, DecidableEq

instance : Inhabited Dimensions := ⟨⟨0, 0⟩⟩

/-- Modelled from the spec: output rotation (section 3). -/
inductive Rotation where
  | Normal
  | Left
  | Inverted
  | Right
  deriving Repr, DecidableEq

/-- Modelled from the spec: output reflection (section 3). -/
inductive Reflection where
  | None
  | XAxis
  | YAxis
  deriving Repr, DecidableEq

/-- Modelled from the spec: a refresh rate with current/preferred flags
(section 3).  The `float64` rate is modelled as the exact decimal value of
the literal. -/
structure Rate where
  rate : ℚ
  isCurrent : Bool
  isPreferred : Bool
  deriving Repr, DecidableEq

/-- Modelled from the spec: a supported mode, a resolution with its rates
(section 3). -/
structure OutputMode where
  resolution : Resolution
  rates : List Rate
  deriving Repr, DecidableEq

/-- Modelled from the spec: one display output record (section 3).  The Go
`map[string]string` of properties is modelled as an association list with
overwriting insertion; lookup of an absent key yields `""` like a Go map
read. -/
structure Output where
  name : String
  isConnected : Bool
  isPrimary : Bool
  isEnabled : Bool
  resolution : Resolution
  position : Position
  rotation : Rotation
  reflection : Reflection
  dimensions : Dimensions
  properties : List (String × String)
  modes : List OutputMode
  deriving Repr, DecidableEq

/-- Modelled from the spec: the parse result, outputs in encounter order
(section 3). -/
structure PropsOutput where
  outputs : List Output
  deriving Repr, DecidableEq

/-- Go map assignment `m[k] = v`: overwrite the entry for `k` or append. -/
def insertProp (k v : String) : List (String × String) → List (String × String)
  | [] => [(k, v)]
  | (k', v') :: rest =>
    if k' = k then (k, v) :: rest else (k', v') :: insertProp k v rest

/-- Go map read `m[k]` with the zero value `""` for an absent key. -/
def lookupProp (k : String) (props : List (String × String)) : String :=
  match props.find? (fun p => p.1 = k) with
  | some p => p.2
  | none => ""

/-- Numeric value of a digit string, most significant digit first. -/
def natOfDigits (ds : List Char) : Nat :=
  ds.foldl (fun acc c => 10 * acc + (c.toNat - 48)) 0

/-- `strconv.ParseInt(lit, 10, 64)`: optional sign, decimal digits, 64-bit
signed range check. -/
def parseIntLit (lit : String) : Except String Int :=
  match lit.data with
  | [] => Except.error "invalid integer syntax"
  | '-' :: ds =>
    if ds ≠ [] ∧ ds.all Char.isDigit then
      if natOfDigits ds ≤ 2 ^ 63 then Except.ok (-(natOfDigits ds : Int))
      else Except.error "value out of range"
    else Except.error "invalid integer syntax"
  | '+' :: ds =>
    if ds ≠ [] ∧ ds.all Char.isDigit then
      if natOfDigits ds ≤ 2 ^ 63 - 1 then Except.ok (natOfDigits ds : Int)
      else Except.error "value out of range"
    else Except.error "invalid integer syntax"
  | ds =>
    if ds.all Char.isDigit then
      if natOfDigits ds ≤ 2 ^ 63 - 1 then Except.ok (natOfDigits ds : Int)
      else Except.error "value out of range"
    else Except.error "invalid integer syntax"

/-- `strconv.ParseUint(lit, 10, 64)`: decimal digits only (no sign), 64-bit
unsigned range check. -/
def parseUintLit (lit : String) : Except String Nat :=
  match lit.data with
  | [] => Except.error "invalid unsigned integer syntax"
  | ds =>
    if ds.all Char.isDigit then
      if natOfDigits ds ≤ 2 ^ 64 - 1 then Except.ok (natOfDigits ds)
      else Except.error "value out of range"
    else Except.error "invalid unsigned integer syntax"

/-- `strconv.ParseFloat(lit, 64)` on the decimal literals the lexer produces,
modelled by the exact decimal value: optional sign, digits, optional point
and fraction digits. -/
def parseFloatLit (lit : String) : Except String ℚ :=
  let core : List Char → Except String ℚ := fun ds =>
    let ipart := ds.takeWhile Char.isDigit
    let rest := ds.dropWhile Char.isDigit
    if ipart = [] then Except.error "invalid float syntax"
    else
      match rest with
      | [] => Except.ok ((natOfDigits ipart : ℚ))
      | '.' :: fs =>
        if fs ≠ [] ∧ fs.all Char.isDigit then
          Except.ok ((natOfDigits ipart : ℚ) +
            mkRat (natOfDigits fs) (10 ^ fs.length))
        else Except.error "invalid float syntax"
      | _ => Except.error "invalid float syntax"
  match lit.data with
  | '-' :: ds => (core ds).map (fun q => -q)
  | '+' :: ds => core ds
  | ds => core ds

/-- The regular expression `^([0-9]+)mm$` of `dimensionPattern`: on a match,
the digit group. -/
def matchDimension (lit : String) : Option (List Char) :=
  let ds := lit.data.takeWhile Char.isDigit
  let rest := lit.data.dropWhile Char.isDigit
  if ds ≠ [] ∧ rest = ['m', 'm'] then some ds else none

/-- The regular expression `^([0-9]+)x([0-9]+)$` of `resolutionPattern` in
src/xrandr/parser.go: on a match, the two digit groups. -/
def matchResolution (lit : String) : Option (List Char × List Char) :=
  let d1 := lit.data.takeWhile Char.isDigit
  let r1 := lit.data.dropWhile Char.isDigit
  match r1 with
  | 'x' :: r2 =>
    let d2 := r2.takeWhile Char.isDigit
    let r3 := r2.dropWhile Char.isDigit
    if d1 ≠ [] ∧ d2 ≠ [] ∧ r3 = [] then some (d1, d2) else none
  | _ => none

/-- Parser state: the pending token stream, the current token, and the
whitespace-skip flag (`Parser.token`, `Parser.skipWS`; the lexer cursor is
the list of tokens not yet delivered). -/
structure PState where
  toks : List Token
  cur : Token
  skipWS : Bool
  deriving Repr, DecidableEq

/-- Core of `Parser.scan`: deliver the next token, silently discarding
`WhiteSpace` tokens when the skip flag is set; at end of input return the
end-of-input token. -/
def scanAux (skip : Bool) : List Token → Token × List Token
  | [] => (eofToken, [])
  | t :: ts =>
    if skip ∧ t.type = TokenType.WhiteSpace then scanAux skip ts else (t, ts)

/-- `Parser.scan` (src/xrandr/parser.go:703): read the next token, skipping
whitespace tokens while `skipWS` is set. -/
def scan (s : PState) : PState :=
  let r := scanAux s.skipWS s.toks
  { s with cur := r.1, toks := r.2 }

/-- Result of a parser routine: success, a parse error, or divergence of the
original code (an end-of-input loop), which the fuel discipline surfaces as
`stuck`. -/
inductive PRes (α : Type) where
  | ok (a : α)
  | err (e : String)
  | stuck
  deriving Repr, DecidableEq

def PRes.isOk {α : Type} : PRes α → Bool
  | .ok _ => true
  | _ => false

def PRes.isErr {α : Type} : PRes α → Bool
  | .err _ => true
  | _ => false

/-- Rendering of a token type for error messages (`TokenType.String`). -/
def TokenType.str : TokenType → String
  | .Name => "Name"
  | .IntValue => "IntValue"
  | .FloatValue => "FloatValue"
  | .Punctuator => "Punctuator"
  | .WhiteSpace => "WhiteSpace"
  | .LineTerminator => "LineTerminator"
  | .EOF => "EOF"

/-- The syntax-error message of `Parser.expect`/`Parser.skip`. -/
def unexpectedMsg (found : Token) (wanted : TokenType) : String :=
  "syntax error: unexpected token found: " ++ found.type.str ++
    " (" ++ found.literal ++ "). Wanted: " ++ wanted.str

/-- `Parser.expect` (src/xrandr/parser.go:624): return the current token and,
when its type matches, advance; otherwise report it unchanged with an
error. -/
def expectT (t : TokenType) (s : PState) : Except String Token × PState :=
  if s.cur.type = t then (Except.ok s.cur, scan s)
  else (Except.error (unexpectedMsg s.cur t), s)

/-- `Parser.skip` (src/xrandr/parser.go:647): like `expect` but discard the
token. -/
def skipT (t : TokenType) (s : PState) : Option String × PState :=
  if s.cur.type = t then (none, scan s)
  else (some (unexpectedMsg s.cur t), s)

/-- `Parser.skipWithLiteral` (src/xrandr/parser.go:672): `skip` plus a check
that the skipped token had the given literal. -/
def skipWithLiteral (t : TokenType) (l : String) (s : PState) :
    Option String × PState :=
  let tok := s.cur
  match skipT t s with
  | (some e, s') => (some e, s')
  | (none, s') =>
    if tok.literal = l then (none, s')
    else
      (some ("syntax error: unexpected literal " ++ l ++
        " found for token type " ++ t.str), s')

/-- `Parser.all` applied to eagerly evaluated method calls: Go evaluates every
argument of `p.all(...)` in order, so every step runs (and consumes tokens)
even after an earlier step failed; the first error is returned. -/
def eagerAll (steps : List (PState → Option String × PState)) (s : PState) :
    Option String × PState :=
  steps.foldl
    (fun acc step =>
      let r := step acc.2
      (match acc.1 with
       | some e => some e
       | none => r.1, r.2))
    (none, s)

/-- `Parser.parseResolution` (src/xrandr/parser.go:563): match the resolution
pattern and parse both groups as 64-bit unsigned integers. -/
def parseResolution (lit : String) : Bool × Resolution :=
  match matchResolution lit with
  | none => (false, default)
  | some (d1, d2) =>
    match parseUintLit (String.mk d1) with
    | Except.error _ => (false, default)
    | Except.ok w =>
      match parseUintLit (String.mk d2) with
      | Except.error _ => (false, default)
      | Except.ok h => (true, ⟨w, h⟩)

/-- `Parser.parseScreen` (src/xrandr/parser.go:588): match and discard the
fixed screen-header token sequence. -/
def parseScreen : PState → Option String × PState :=
  eagerAll
    [ skipWithLiteral TokenType.Name "Screen",
      skipT TokenType.IntValue,
      skipT TokenType.Punctuator,
      skipWithLiteral TokenType.Name "minimum",
      skipT TokenType.IntValue,
      skipWithLiteral TokenType.Name "x",
      skipT TokenType.IntValue,
      skipT TokenType.Punctuator,
      skipWithLiteral TokenType.Name "current",
      skipT TokenType.IntValue,
      skipWithLiteral TokenType.Name "x",
      skipT TokenType.IntValue,
      skipT TokenType.Punctuator,
      skipWithLiteral TokenType.Name "maximum",
      skipT TokenType.IntValue,
      skipWithLiteral TokenType.Name "x",
      skipT TokenType.IntValue,
      skipT TokenType.LineTerminator ]

/-- `Parser.parseOutputName` (src/xrandr/parser.go:60). -/
def parseOutputName (o : Output) (s : PState) : PRes (Output × PState) :=
  let s := { s with skipWS := true }
  match expectT TokenType.Name s with
  | (Except.error e, _) => .err e
  | (Except.ok tok, s') => .ok ({ o with name := tok.literal }, s')

/-- `Parser.parseOutputStatus` (src/xrandr/parser.go:73).  Note the initial
`p.scan()` discards the token under the cursor before the literal
comparisons. -/
def parseOutputStatus (o : Output) (s : PState) : PRes (Output × PState) :=
  let s := { s with skipWS := true }
  let s := scan s
  let (o, s) :=
    if s.cur.literal = "connected" then
      ({ o with isConnected := true }, scan s)
    else (o, s)
  let (o, s) :=
    if s.cur.type = TokenType.Name ∧ s.cur.literal = "primary" then
      ({ o with isPrimary := true }, scan s)
    else (o, s)
  .ok (o, s)

/-- `Parser.parseResolutionAndPosition` (src/xrandr/parser.go:100). -/
def parseResolutionAndPosition (o : Output) (s : PState) :
    PRes (Output × PState) :=
  let s := { s with skipWS := true }
  if s.cur.type = TokenType.Name then
    match parseResolution s.cur.literal with
    | (false, _) => .ok (o, s)
    | (true, res) =>
      let o := { o with isEnabled := true, resolution := res }
      let s := scan s
      match skipWithLiteral TokenType.Punctuator "+" s with
      | (some e, _) => .err e
      | (none, s) =>
        match expectT TokenType.IntValue s with
        | (Except.error e, _) => .err e
        | (Except.ok tokX, s) =>
          match parseIntLit tokX.literal with
          | Except.error e => .err e
          | Except.ok offsetX =>
            match skipWithLiteral TokenType.Punctuator "+" s with
            | (some e, _) => .err e
            | (none, s) =>
              match expectT TokenType.IntValue s with
              | (Except.error e, _) => .err e
              | (Except.ok tokY, s) =>
                match parseIntLit tokY.literal with
                | Except.error e => .err e
                | Except.ok offsetY =>
                  .ok ({ o with position := ⟨offsetX, offsetY⟩ }, s)
  else .ok (o, s)

/-- `Parser.parseOutputRotationAndReflection` (src/xrandr/parser.go:153). -/
def parseOutputRotationAndReflection (o : Output) (s : PState) :
    PRes (Output × PState) :=
  let s := { s with skipWS := true }
  let (o, s) :=
    if s.cur.type = TokenType.Name then
      let rot : Option Rotation :=
        if s.cur.literal = "normal" then some Rotation.Normal
        else if s.cur.literal = "left" then some Rotation.Left
        else if s.cur.literal = "inverted" then some Rotation.Inverted
        else if s.cur.literal = "right" then some Rotation.Right
        else none
      match rot with
      | some r => ({ o with rotation := r }, scan s)
      | none => (o, s)
    else (o, s)
  if s.cur.type = TokenType.Name then
    let foundX := s.cur.literal = "x"
    let foundY := s.cur.literal = "y"
    if foundX ∨ foundY then
      let s := scan s
      if s.cur.type = TokenType.Name ∧ s.cur.literal = "axis" then
        let o :=
          if foundX then { o with reflection := Reflection.XAxis }
          else if foundY then { o with reflection := Reflection.YAxis }
          else o
        .ok (o, scan s)
      else .ok (o, s)
    else .ok (o, s)
  else .ok (o, s)

/-- `Parser.parseOutputRotationAndReflectionKey` (src/xrandr/parser.go:220):
match and discard the constant parenthesised keyword legend. -/
def parseOutputRotationAndReflectionKey (s : PState) :
    Option String × PState :=
  let s := { s with skipWS := true }
  eagerAll
    [ skipWithLiteral TokenType.Punctuator "(",
      skipWithLiteral TokenType.Name "normal",
      skipWithLiteral TokenType.Name "left",
      skipWithLiteral TokenType.Name "inverted",
      skipWithLiteral TokenType.Name "right",
      skipWithLiteral TokenType.Name "x",
      skipWithLiteral TokenType.Name "axis",
      skipWithLiteral TokenType.Name "y",
      skipWithLiteral TokenType.Name "axis",
      skipWithLiteral TokenType.Punctuator ")" ] s

/-- `Parser.parseOutputDimension` (src/xrandr/parser.go:275).  When the name
does not match the dimension pattern the Go code returns `0` with the `nil`
error of the preceding successful expect — a silent zero. -/
def parseOutputDimension (s : PState) : PRes (Nat × PState) :=
  let s := { s with skipWS := true }
  match expectT TokenType.Name s with
  | (Except.error e, _) => .err e
  | (Except.ok tok, s') =>
    match matchDimension tok.literal with
    | none => .ok (0, s')
    | some ds =>
      match parseUintLit (String.mk ds) with
      | Except.error e => .err e
      | Except.ok n => .ok (n, s')

/-- `Parser.parseOutputDimensions` (src/xrandr/parser.go:239). -/
def parseOutputDimensions (o : Output) (s : PState) : PRes (Output × PState) :=
  let s := { s with skipWS := true }
  if s.cur.type ≠ TokenType.Name then
    if s.cur.type = TokenType.LineTerminator then .ok (o, scan s)
    else .ok (o, s)
  else
    match parseOutputDimension s with
    | .err e => .err e
    | .stuck => .stuck
    | .ok (xdim, s) =>
      match skipWithLiteral TokenType.Name "x" s with
      | (some e, _) => .err e
      | (none, s) =>
        match parseOutputDimension s with
        | .err e => .err e
        | .stuck => .stuck
        | .ok (ydim, s) =>
          .ok ({ o with dimensions := ⟨xdim, ydim⟩ }, s)

/-- The name-accumulation loop of `Parser.parseProperty`
(src/xrandr/parser.go:332): concatenate literals until a `:` punctuator. -/
def propNameLoop (fuel : Nat) (name : String) (s : PState) :
    PRes (String × PState) :=
  match fuel with
  | 0 => .stuck
  | fuel + 1 =>
    if s.cur.type = TokenType.Punctuator ∧ s.cur.literal = ":" then
      .ok (name, s)
    else propNameLoop fuel (name ++ s.cur.literal) (scan s)

/-- The scan-and-append-until-line-terminator loop of `Parser.parseProperty`
(src/xrandr/parser.go:374 and :389). -/
def propValueLoop (fuel : Nat) (value : String) (s : PState) :
    PRes (String × PState) :=
  match fuel with
  | 0 => .stuck
  | fuel + 1 =>
    let s := scan s
    if s.cur.type = TokenType.LineTerminator then .ok (value, s)
    else propValueLoop fuel (value ++ s.cur.literal) s

/-- The scan-until-line-terminator loop of `Parser.parseProperty`
(src/xrandr/parser.go:425): like `propValueLoop` but the literals are
discarded. -/
def propSkipLineLoop (fuel : Nat) (s : PState) : PRes PState :=
  match fuel with
  | 0 => .stuck
  | fuel + 1 =>
    let s := scan s
    if s.cur.type = TokenType.LineTerminator then .ok s
    else propSkipLineLoop fuel s

/-- Whether a token is the single-tab whitespace token. -/
def isTab (t : Token) : Prop :=
  t.type = TokenType.WhiteSpace ∧ t.literal = "\t"

instance (t : Token) : Decidable (isTab t) :=
  inferInstanceAs (Decidable (_ ∧ _))

/-- The continuation loop of the line-terminator branch of
`Parser.parseProperty` (src/xrandr/parser.go:354): while lines start with two
tabs, append their content to the value. -/
def propContValueLoop (fuel : Nat) (value : String) (s : PState) :
    PRes (String × PState) :=
  match fuel with
  | 0 => .stuck
  | fuel + 1 =>
    let s := scan s
    if ¬ isTab s.cur then .ok (value, s)
    else
      let s := scan s
      if ¬ isTab s.cur then .ok (value, s)
      else
        match propValueLoop (s.toks.length + 2) value s with
        | .err e => .err e
        | .stuck => .stuck
        | .ok (value, s) => propContValueLoop fuel value s

/-- The continuation loop of the inline branch of `Parser.parseProperty`
(src/xrandr/parser.go:404): identical two-tab scan, but the content of the
continuation lines is skipped rather than appended. -/
def propSkipContLoop (fuel : Nat) (s : PState) : PRes PState :=
  match fuel with
  | 0 => .stuck
  | fuel + 1 =>
    let s := scan s
    if ¬ isTab s.cur then .ok s
    else
      let s := scan s
      if ¬ isTab s.cur then .ok s
      else
        match propSkipLineLoop (s.toks.length + 2) s with
        | .err e => .err e
        | .stuck => .stuck
        | .ok s => propSkipContLoop fuel s

/-- `Parser.parseProperty` (src/xrandr/parser.go:320). -/
def parseProperty (o : Output) (s : PState) : PRes (Output × PState) :=
  match expectT TokenType.Name s with
  | (Except.error e, _) => .err e
  | (Except.ok tok, s) =>
    match propNameLoop (s.toks.length + 2) tok.literal s with
    | .err e => .err e
    | .stuck => .stuck
    | .ok (name, s) =>
      let r1 := skipWithLiteral TokenType.Punctuator ":" s
      let r2 := skipWithLiteral TokenType.WhiteSpace " " r1.2
      match
        (match r1.1 with
         | some e => some e
         | none => r2.1) with
      | some e => .err e
      | none =>
        let s := r2.2
        if s.cur.type = TokenType.LineTerminator then
          match propContValueLoop (s.toks.length + 2) "" s with
          | .err e => .err e
          | .stuck => .stuck
          | .ok (value, s) =>
            .ok ({ o with
              properties := insertProp name.trim value.trim o.properties }, s)
        else if s.cur.type = TokenType.Name ∨ s.cur.type = TokenType.IntValue ∨
            s.cur.type = TokenType.FloatValue then
          match propValueLoop (s.toks.length + 2) s.cur.literal s with
          | .err e => .err e
          | .stuck => .stuck
          | .ok (value, s) =>
            match propSkipContLoop (s.toks.length + 2) s with
            | .err e => .err e
            | .stuck => .stuck
            | .ok s =>
              .ok ({ o with
                properties := insertProp name.trim value.trim o.properties }, s)
        else
          .ok ({ o with
            properties := insertProp name.trim "".trim o.properties }, s)

/-- The loop of `Parser.parseProperties` (src/xrandr/parser.go:301). -/
def parsePropertiesLoop (fuel : Nat) (o : Output) (s : PState) :
    PRes (Output × PState) :=
  match fuel with
  | 0 => .stuck
  | fuel + 1 =>
    if s.cur.type ≠ TokenType.WhiteSpace ∧ s.cur.literal ≠ "\t" then .ok (o, s)
    else
      let s := scan s
      match parseProperty o s with
      | .err e => .err e
      | .stuck => .stuck
      | .ok (o, s) => parsePropertiesLoop fuel o s

/-- `Parser.parseProperties` (src/xrandr/parser.go:297): turn whitespace
skipping off and read property lines. -/
def parseProperties (o : Output) (s : PState) : PRes (Output × PState) :=
  let s := { s with skipWS := false }
  parsePropertiesLoop (s.toks.length + 2) o s

/-- The rate loop of `Parser.parseModes` (src/xrandr/parser.go:472). -/
def parseRatesLoop (fuel : Nat) (rates : List Rate) (s : PState) :
    PRes (List Rate × PState) :=
  match fuel with
  | 0 => .stuck
  | fuel + 1 =>
    if s.cur.type ≠ TokenType.FloatValue then .ok (rates, s)
    else
      match parseFloatLit s.cur.literal with
      | Except.error e => .err e
      | Except.ok q =>
        let s := scan s
        let (isCur, s) :=
          if s.cur.type = TokenType.Punctuator ∧ s.cur.literal = "*" then
            (true, scan s)
          else (false, s)
        let (isPref, s) :=
          if s.cur.type = TokenType.Punctuator ∧ s.cur.literal = "+" then
            (true, scan s)
          else (false, s)
        parseRatesLoop fuel (rates ++ [⟨q, isCur, isPref⟩]) s

/-- The mode loop of `Parser.parseModes` (src/xrandr/parser.go:454).  A name
that does not match the resolution pattern is a parse error in this snapshot
of the code. -/
def parseModesLoop (fuel : Nat) (o : Output) (s : PState) :
    PRes (Output × PState) :=
  match fuel with
  | 0 => .stuck
  | fuel + 1 =>
    if s.cur.type ≠ TokenType.Name then .ok (o, s)
    else
      match parseResolution s.cur.literal with
      | (false, _) => .err ("expected resolution: got " ++ s.cur.literal)
      | (true, res) =>
        let s := scan s
        match parseRatesLoop (s.toks.length + 2) [] s with
        | .err e => .err e
        | .stuck => .stuck
        | .ok (rates, s) =>
          parseModesLoop fuel { o with modes := o.modes ++ [⟨res, rates⟩] } s

/-- `Parser.parseModes` (src/xrandr/parser.go:442). -/
def parseModes (o : Output) (s : PState) : PRes (Output × PState) :=
  let s := { s with skipWS := true }
  if s.cur.type ≠ TokenType.WhiteSpace ∧ s.cur.literal ≠ " " then .ok (o, s)
  else
    let s := scan s
    parseModesLoop (s.toks.length + 2) o s

/-- The `Output{}` zero value together with the defaults `parseOutput` sets
before parsing (src/xrandr/parser.go:515): an empty properties map,
`RotationNormal` and `ReflectionNone`. -/
def outputZero : Output :=
  { name := "", isConnected := false, isPrimary := false, isEnabled := false,
    resolution := default, position := default,
    rotation := Rotation.Normal, reflection := Reflection.None,
    dimensions := default, properties := [], modes := [] }

/-- `Parser.parseOutput` (src/xrandr/parser.go:514): the strict sequence of
sub-productions, with the error-message wrapping of the original. -/
def parseOutput (s : PState) : PRes (Output × PState) :=
  let o : Output := outputZero
  match parseOutputName o s with
  | .err e => .err ("error parsing output name: " ++ e)
  | .stuck => .stuck
  | .ok (o, s) =>
    match parseOutputStatus o s with
    | .err e => .err ("error parsing output status: " ++ e)
    | .stuck => .stuck
    | .ok (o, s) =>
      match parseResolutionAndPosition o s with
      | .err e => .err ("error parsing output resolution and position: " ++ e)
      | .stuck => .stuck
      | .ok (o, s) =>
        match parseOutputRotationAndReflection o s with
        | .err e =>
          .err ("error parsing output rotation and reflection: " ++ e)
        | .stuck => .stuck
        | .ok (o, s) =>
          match parseOutputRotationAndReflectionKey s with
          | (some e, _) =>
            .err ("error parsing output rotation and reflection key: " ++ e)
          | (none, s) =>
            match parseOutputDimensions o s with
            | .err e => .err ("error parsing output dimensions: " ++ e)
            | .stuck => .stuck
            | .ok (o, s) =>
              match parseProperties o s with
              | .err e => .err ("error parsing output properties: " ++ e)
              | .stuck => .stuck
              | .ok (o, s) =>
                match parseModes o s with
                | .err e => .err ("error parsing output modes: " ++ e)
                | .stuck => .stuck
                | .ok (o, s) => .ok (o, s)

/-- Outcome of `Parser.ParseProps`: the Go method returns the (possibly
partially filled) `PropsOutput` together with an optional error; `hang`
stands for divergence of the original loops. -/
inductive POut where
  | ret (props : PropsOutput) (err : Option String)
  | hang
  deriving Repr, DecidableEq

def POut.isError : POut → Bool
  | .ret _ (some _) => true
  | .ret _ none => false
  | .hang => false

def POut.outputs : POut → List Output
  | .ret props _ => props.outputs
  | .hang => []

/-- The output loop of `Parser.ParseProps` (src/xrandr/parser.go:44):
repeatedly parse outputs, appending each to the result, until the end-of-input
token; an error aborts, returning the outputs accumulated so far alongside
it. -/
def parsePropsLoop (fuel : Nat) (props : PropsOutput) (s : PState) : POut :=
  match fuel with
  | 0 => .hang
  | fuel + 1 =>
    match parseOutput s with
    | .err e => .ret props (some e)
    | .stuck => .hang
    | .ok (o, s) =>
      let props : PropsOutput := ⟨props.outputs ++ [o]⟩
      if s.cur.type = TokenType.EOF then .ret props none
      else parsePropsLoop fuel props s

/-- `Parser.ParseProps` (src/xrandr/parser.go:27) on a token stream: initial
scan, discard the screen header, then parse outputs until end of input. -/
def ParseProps (toks : List Token) : POut :=
  let s := scan { toks := toks, cur := eofToken, skipWS := true }
  match parseScreen s with
  | (some e, _) => .ret ⟨[]⟩ (some e)
  | (none, s) => parsePropsLoop (toks.length + 2) ⟨[]⟩ s

/-! ## The lexer, modelled from the specification

The lexer source file of the xrandr package is not among the sources (only the
parser, which consumes `Lexer.Scan`, is).  The classification below follows
specification section 4.1: newline, runs of spaces or a single tab, the fixed
punctuators, purely numeric runs as `IntValue`/`FloatValue`, and otherwise a
maximal `Name` run, with 1-based line/column tracking.  Two details of the
specification text are internally inconsistent and are resolved in favour of
its own worked examples: section 3 lists `x` and `-` among the punctuators,
but rule 5 of section 4.1 and the section 8 examples require `"1920x1080"`,
`"310mm"`, `"eDP-1"` and the standalone dimension separator `"x"` to lex as
single `Name` tokens, so `x` and `-` are name characters here; the comma that
separates the screen-header triples (matched by the parser as a `Punctuator`)
is included in the punctuator set, which section 3 omits. -/

def punctChars : List Char := ['+', ':', '(', ')', '*', ',']

def isLexWS (c : Char) : Bool := c = ' '

/-- A character that extends a word (a candidate `Name` or numeric token). -/
def isWordChar (c : Char) : Bool :=
  ¬ (c = '\n' ∨ c = ' ' ∨ c = '\t' ∨ c ∈ punctChars)

/-- Classify a complete word: all digits is an `IntValue`, digits-point-digits
is a `FloatValue`, anything else is a `Name` (spec section 4.1, rules 4-5). -/
def classifyWord (w : List Char) : TokenType :=
  if w.all Char.isDigit then TokenType.IntValue
  else
    let ipart := w.takeWhile Char.isDigit
    let rest := w.dropWhile Char.isDigit
    match rest with
    | '.' :: fs =>
      if ipart ≠ [] ∧ fs ≠ [] ∧ fs.all Char.isDigit then TokenType.FloatValue
      else TokenType.Name
    | _ => TokenType.Name

/-- Modelled from the spec: the lexer loop.  `line`/`col` are the 1-based
position of the next character. -/
def lexAux (fuel : Nat) (cs : List Char) (line col : Nat) : List Token :=
  match fuel with
  | 0 => []
  | fuel + 1 =>
    match cs with
    | [] => []
    | '\n' :: rest =>
      ⟨TokenType.LineTerminator, "\n", line, col⟩ :: lexAux fuel rest (line + 1) 1
    | '\t' :: rest =>
      ⟨TokenType.WhiteSpace, "\t", line, col⟩ :: lexAux fuel rest line (col + 1)
    | ' ' :: rest =>
      let sp := rest.takeWhile isLexWS
      let rest := rest.dropWhile isLexWS
      ⟨TokenType.WhiteSpace, String.mk (' ' :: sp), line, col⟩ ::
        lexAux fuel rest line (col + 1 + sp.length)
    | c :: rest =>
      if c ∈ punctChars then
        ⟨TokenType.Punctuator, String.mk [c], line, col⟩ ::
          lexAux fuel rest line (col + 1)
      else
        let w := c :: rest.takeWhile isWordChar
        let rest := rest.dropWhile isWordChar
        ⟨classifyWord w, String.mk w, line, col⟩ ::
          lexAux fuel rest line (col + w.length)

/-- Modelled from the spec: tokenize a whole input buffer. -/
def lex (input : String) : List Token :=
  lexAux (input.length + 1) input.data 1 1

/-! ## The callers of the parser (src/unnamed/part_001)

`parseProps` and `calculateHashForOutputs` live in the caller package.  The
parser they call (the `props` package variant) is not among the sources; the
embedded parser above stands for it.  The MD5 digest and hex encoding of
`crypto/md5`/`encoding/hex` are a pure function of the written byte stream
and are abstracted as an explicit function parameter `md5hex`. -/

/-- `parseProps` (src/unnamed/part_001:25): run the parser and surface either
the outputs or the error — the partially filled result accompanying an error
is discarded (`return nil, err`).  `none` stands for divergence of the
underlying parse. -/
def parseProps (rawProps : String) : Option (List Output × Option String) :=
  match ParseProps (lex rawProps) with
  | POut.ret _ (some e) => some ([], some e)
  | POut.ret parsed none => some (parsed.outputs, none)
  | POut.hang => none

/-- The byte stream `calculateHashForOutputs` feeds to the digest: for each
connected output, its name then its `EDID` property value
(src/unnamed/part_001:40). -/
def hashStream (outputs : List Output) : String :=
  outputs.foldl
    (fun acc o =>
      if o.isConnected then acc ++ o.name ++ lookupProp "EDID" o.properties
      else acc)
    ""

/-- `calculateHashForOutputs` (src/unnamed/part_001:37): digest of the
`hashStream`; `md5hex` stands for MD5 followed by hex encoding. -/
def calculateHashForOutputs (md5hex : String → String)
    (outputs : List Output) : String :=
  md5hex (hashStream outputs)

/-! ## Specification-side pattern definitions (for claim C4)

These two definitions transcribe the claim text, not the source: "digits,
literal x, digits, optional trailing interlace marker i" for the
current-resolution shape and "digits x digits with no trailing i" for the
mode shape. -/

/-- The current-resolution pattern as the specification words it. -/
def specCurrentResMatch (l : String) : Bool :=
  let d1 := l.data.takeWhile Char.isDigit
  let r1 := l.data.dropWhile Char.isDigit
  decide (d1 ≠ []) &&
    match r1 with
    | 'x' :: r2 =>
      let d2 := r2.takeWhile Char.isDigit
      let r3 := r2.dropWhile Char.isDigit
      decide (d2 ≠ []) && (decide (r3 = []) || decide (r3 = ['i']))
    | _ => false

/-- The mode-resolution pattern as the specification words it. -/
def specModeResMatch (l : String) : Bool :=
  let d1 := l.data.takeWhile Char.isDigit
  let r1 := l.data.dropWhile Char.isDigit
  decide (d1 ≠ []) &&
    match r1 with
    | 'x' :: r2 =>
      let d2 := r2.takeWhile Char.isDigit
      let r3 := r2.dropWhile Char.isDigit
      decide (d2 ≠ []) && decide (r3 = [])
    | _ => false

/-- The two digit groups a resolution literal decomposes into: the digits
before the separator and the digits directly after it. -/
def resGroups (l : String) : List Char × List Char :=
  (l.data.takeWhile Char.isDigit,
    ((l.data.dropWhile Char.isDigit).drop 1).takeWhile Char.isDigit)

/-! ## Concrete fixtures and statement-level definitions -/

/-- The zero value `Output{}` with the defaults `parseOutput` sets. -/
def defOutput : Output :=
  { name := "", isConnected := false, isPrimary := false, isEnabled := false,
    resolution := default, position := default, rotation := Rotation.Normal,
    reflection := Reflection.None, dimensions := default, properties := [],
    modes := [] }

def wsTok : Token := ⟨TokenType.WhiteSpace, " ", 0, 0⟩

def tabTok : Token := ⟨TokenType.WhiteSpace, "\t", 0, 0⟩

def nlTok : Token := ⟨TokenType.LineTerminator, "\n", 0, 0⟩

def colonTok : Token := ⟨TokenType.Punctuator, ":", 0, 0⟩

def spTok : Token := ⟨TokenType.WhiteSpace, " ", 0, 0⟩

def nameTok (nm : String) : Token := ⟨TokenType.Name, nm, 0, 0⟩

/-- A valid screen-header line. -/
def hdr : String :=
  "Screen 0: minimum 320 x 200, current 1920 x 1080, maximum 8192 x 8192\n"

/-- The buffer of claim C1: header, the fully featured connected output block,
a line terminator, no indented lines. -/
def c1input : String :=
  hdr ++ "eDP-1 connected primary 1920x1080+0+0 normal " ++
    "(normal left inverted right x axis y axis) 310mm x 170mm\n"

/-- A well-formed single-output block with no modes, no properties and all
optional clauses absent: a connected but disabled output. -/
def c6input : String :=
  hdr ++ "HDMI-2 connected (normal left inverted right x axis y axis)\n"

/-- A buffer whose first output block parses completely and whose second one
fails. -/
def c3input : String :=
  hdr ++ "HDMI-2 connected (normal left inverted right x axis y axis)\nfoo\n"

/-- A buffer that parses successfully with one enabled output at `+0+0`. -/
def c10winput : String :=
  hdr ++ "LVDS-1 connected 1280x800+0+0 (normal left inverted right x axis y axis)\n"

/-- The single output the parser produces for `c6input`. -/
def c6expected : Output :=
  { defOutput with name := "HDMI-2" }

/-- The single output the parser produces for `c10winput`. -/
def c10wexpected : Output :=
  { defOutput with
    name := "LVDS-1"
    isEnabled := true
    resolution := ⟨1280, 800⟩ }

/-- Parser state at the head of a mode list whose first candidate mode name
is the interlaced literal of claim C5. -/
def c5state : PState :=
  ⟨lex "1920x1080i     60.00*+  59.94  ", wsTok, true⟩

/-- Parser state at the head of a mode list whose first candidate name is the
next output's name. -/
def c2cexState : PState :=
  ⟨[nameTok "DP-2", nlTok], wsTok, true⟩

/-- Concatenation of the literals of a token list. -/
def litsOf : List Token → String
  | [] => ""
  | t :: ts => t.literal ++ litsOf ts

/-- Concatenation of the literals of a list of continuation-line contents. -/
def contLits : List (List Token) → String
  | [] => ""
  | cs :: rest => litsOf cs ++ contLits rest

/-- The parser state after consuming the head of a stream with whitespace
skipping off. -/
def popState : List Token → PState
  | [] => ⟨[], eofToken, false⟩
  | t :: ts => ⟨ts, t, false⟩

/-- The token stream of a sequence of doubly-tab-indented continuation lines:
each line is two tab tokens, its content tokens, and a line terminator. -/
def contFlat (conts : List (List Token)) : List Token :=
  (conts.map (fun cs => tabTok :: tabTok :: cs ++ [nlTok])).flatten

/-- The first token of the list (the end-of-input token when empty) is not a
single-tab whitespace token. -/
def headNotTab : List Token → Prop
  | [] => True
  | t :: _ => ¬ isTab t

/-- Every `IntValue` token of the list carries a pure digit literal (what the
lexer guarantees for the tokens it classifies as `IntValue`). -/
def IntLitsDigits (T : List Token) : Prop :=
  ∀ t ∈ T, t.type = TokenType.IntValue → t.literal.data.all Char.isDigit = true

instance (T : List Token) : Decidable (IntLitsDigits T) :=
  inferInstanceAs (Decidable (∀ t ∈ T, t.type = TokenType.IntValue →
    t.literal.data.all Char.isDigit = true))

/-- The tokens reachable from a parser state all come from the master token
list `T` (the current token may also be the end-of-input token). -/
def InvT (T : List Token) (s : PState) : Prop :=
  (∀ t ∈ s.toks, t ∈ T) ∧ (s.cur ∈ T ∨ s.cur = eofToken)

/-- Non-negative position offsets. -/
def PosOK (o : Output) : Prop :=
  0 ≤ o.position.offsetX ∧ 0 ≤ o.position.offsetY

/-- The data the output fingerprint is built from: the names and `EDID`
property values of the connected outputs, in order. -/
def connectedKey (outputs : List Output) : List (String × String) :=
  (outputs.filter (fun o => o.isConnected)).map
    (fun o => (o.name, lookupProp "EDID" o.properties))

/-- Two outputs for the C9 witness: a connected one with an EDID and an extra
property, and a disconnected one. -/
def c9a : List Output :=
  [{ defOutput with
      name := "eDP-1"
      isConnected := true
      properties := [("EDID", "00ffaa"), ("Brightness", "1.0")] },
   { defOutput with
      name := "HDMI-1"
      properties := [("EDID", "ignored")] }]

/-- The same connected projection as `c9a` with the disconnected output and
the non-EDID property changed. -/
def c9b : List Output :=
  [{ defOutput with name := "DP-9" },
   { defOutput with
      name := "eDP-1"
      isConnected := true
      properties := [("Brightness", "0.5"), ("EDID", "00ffaa")] }]

/-- A parser state with whitespace skipping on and pending whitespace. -/
def c7wstate : PState :=
  ⟨[wsTok, nameTok "connected"], nlTok, true⟩

/-! # Claim theorems -/

/-- C1: parsing a buffer of a valid screen header followed by the single
output block `eDP-1 connected primary 1920x1080+0+0 normal (normal left
inverted right x axis y axis) 310mm x 170mm` and a line terminator is claimed
to return one fully populated `Output` with `isConnected = true`.  The code
instead fails: `parseOutputStatus` scans past the status token before
comparing literals, so the accumulated output has `isConnected = false`, and
after the single block the pending line terminator makes the output loop
demand another output name, which is a fatal parse error. -/
theorem c1_single_output_block_parse_fails :
    (ParseProps (lex c1input)).isError = true ∧
    (ParseProps (lex c1input)).outputs.map Output.isConnected = [false] := by
  constructor
  · decide
  · decide

/-- C6: a well-formed single-output block with no modes, no properties and no
optional clauses is claimed to parse into one `Output` at defaults with
`isConnected` reflecting the status word.  For the connected-but-disabled
block of `c6input` the parse does succeed with one all-default output, but
`isConnected` is `false` even though the status reads `connected`, because
`parseOutputStatus` discards the status token before comparing it. -/
theorem c6_connected_block_parses_with_isConnected_false :
    ParseProps (lex c6input) = POut.ret ⟨[c6expected]⟩ none ∧
    c6expected.isConnected = false := by
  constructor
  · decide
  · decide

/-- C2 (counterexample): the claim says that a candidate mode-line name that
does not match the mode-resolution pattern ends the mode list without an
error; in src/xrandr/parser.go, `parseModes` instead raises a parse error for
the non-matching name `DP-2`. -/
theorem c2_parseModes_nonmatching_name_errors_cex :
    (parseModes defOutput c2cexState).isErr = true := by
  decide

/-- C2 (amended): whenever the first candidate mode-line name does not match
the mode-resolution pattern, `parseModes` of src/xrandr/parser.go raises the
parse error `expected resolution` instead of returning successfully. -/
theorem c2_parseModes_nonmatching_name_raises (lit : String) (rest : List Token)
    (o : Output) (b : Bool) (hno : (parseResolution lit).1 = false) :
    parseModes o ⟨⟨TokenType.Name, lit, 0, 0⟩ :: rest, wsTok, b⟩ =
      PRes.err ("expected resolution: got " ++ lit) := by
  rcases hpr : parseResolution lit with ⟨flag, r⟩
  rw [hpr] at hno
  subst hno
  simp [parseModes, scan, scanAux, wsTok, parseModesLoop, hpr, eofToken]

/-- C2 (witness): the amended claim at the concrete non-matching name
`HDMI-1`. -/
theorem c2_witness :
    parseModes defOutput ⟨[⟨TokenType.Name, "HDMI-1", 0, 0⟩], wsTok, true⟩ =
      PRes.err ("expected resolution: got " ++ "HDMI-1") :=
  c2_parseModes_nonmatching_name_raises "HDMI-1" [] defOutput true (by decide)

/-- C5 (counterexample): the mode line `1920x1080i     60.00*+  59.94  ` is
claimed to yield one mode with two rates; in src/xrandr/parser.go it makes
`parseModes` fail, because the mode-resolution pattern there has no interlace
suffix. -/
theorem c5_interlaced_mode_line_cex :
    (parseModes defOutput c5state).isErr = true := by
  decide

/-- C5 (amended): parsing that mode line raises the parse error
`expected resolution: got 1920x1080i`. -/
theorem c5_interlaced_mode_line_errors :
    parseModes defOutput c5state =
      PRes.err "expected resolution: got 1920x1080i" := by
  decide

/-- C4 (counterexample): the claim says a literal is accepted as a current
resolution exactly when it matches digits `x` digits with an optional
trailing `i`; the literal `1920x1080i` matches that pattern but
`parseResolution` — the function `parseResolutionAndPosition` applies to the
current-resolution field — rejects it. -/
theorem c4_current_resolution_rejects_interlace_cex :
    specCurrentResMatch "1920x1080i" = true ∧
    (parseResolution "1920x1080i").1 = false := by
  constructor
  · decide
  · decide

/-- C3 (counterexample): the claim says the `PropsOutput` accompanying a
parse error contains zero outputs; on `c3input` the first block parses
completely, the second fails, and `ParseProps` returns the error together
with the one previously parsed output. -/
theorem c3_partial_props_accompany_error_cex :
    (ParseProps (lex c3input)).isError = true ∧
    (ParseProps (lex c3input)).outputs.length = 1 := by
  constructor
  · decide
  · decide

/-- C3 (amended): `ParseProps` returns the outputs completed before the
failure alongside the error; the caller-side wrapper `parseProps`
(src/unnamed/part_001) discards them, so callers observe no outputs with the
error. -/
theorem c3_wrapper_discards_partial_outputs (raw : String)
    (parsed : PropsOutput) (e : String)
    (h : ParseProps (lex raw) = POut.ret parsed (some e)) :
    parseProps raw = some ([], some e) := by
  unfold parseProps
  rw [h]

/-- C3 (witness): the amended claim at a concrete failing buffer. -/
theorem c3_witness :
    parseProps "zzz" =
      some ([],
        some "syntax error: unexpected literal Screen found for token type Name") :=
  c3_wrapper_discards_partial_outputs "zzz" ⟨[]⟩ _ (by decide)

/-- Auxiliary: with skipping on, `scanAux` drops only whitespace tokens and
never returns one. -/
theorem scanAux_skip_spec (l : List Token) :
    (scanAux true l).1.type ≠ TokenType.WhiteSpace ∧
    ∃ pre, (∀ t ∈ pre, t.type = TokenType.WhiteSpace) ∧
      (l = pre ++ (scanAux true l).1 :: (scanAux true l).2 ∨
        (l = pre ∧ (scanAux true l).1 = eofToken ∧ (scanAux true l).2 = [])) := by
  induction l with
  | nil =>
    constructor
    · simp [scanAux, eofToken]
    · exact ⟨[], by simp, Or.inr ⟨rfl, rfl, rfl⟩⟩
  | cons t ts ih =>
    by_cases h : t.type = TokenType.WhiteSpace
    · have hred : scanAux true (t :: ts) = scanAux true ts := by
        simp [scanAux, h]
      rw [hred]
      obtain ⟨h1, pre, hpre, hsplit⟩ := ih
      refine ⟨h1, t :: pre, ?_, ?_⟩
      · intro u hu
        rcases List.mem_cons.mp hu with rfl | hu
        · exact h
        · exact hpre u hu
      · rcases hsplit with hsplit | ⟨hl, he, hr⟩
        · exact Or.inl (by rw [List.cons_append, ← hsplit])
        · exact Or.inr ⟨by rw [hl], he, hr⟩
    · have hred : scanAux true (t :: ts) = (t, ts) := by
        simp [scanAux, h]
      rw [hred]
      exact ⟨h, [], by simp, Or.inl rfl⟩

/-- C7: with whitespace skipping on, `scan` never leaves a whitespace token
as the current token and every token it discards is whitespace (so line
terminators are never auto-skipped); with skipping off, the head token of
the stream is delivered verbatim, whitespace included. -/
theorem c7_scan_skip_semantics (s : PState) :
    (s.skipWS = true →
      (scan s).cur.type ≠ TokenType.WhiteSpace ∧
      ∃ pre, (∀ t ∈ pre, t.type = TokenType.WhiteSpace) ∧
        (s.toks = pre ++ (scan s).cur :: (scan s).toks ∨
          (s.toks = pre ∧ (scan s).cur = eofToken ∧ (scan s).toks = []))) ∧
    (s.skipWS = false →
      (s.toks = [] → (scan s).cur = eofToken ∧ (scan s).toks = []) ∧
      ∀ t ts, s.toks = t :: ts → (scan s).cur = t ∧ (scan s).toks = ts) := by
  constructor
  · intro hskip
    have hmain := scanAux_skip_spec s.toks
    simp only [scan, hskip]
    exact hmain
  · intro hskip
    constructor
    · intro hnil
      simp [scan, hskip, hnil, scanAux]
    · intro t ts h
      simp [scan, hskip, h, scanAux]

/-- C7 (witness): the skip-mode clause at a concrete state with pending
whitespace. -/
theorem c7_witness :
    (scan c7wstate).cur.type ≠ TokenType.WhiteSpace ∧
    ∃ pre, (∀ t ∈ pre, t.type = TokenType.WhiteSpace) ∧
      (c7wstate.toks = pre ++ (scan c7wstate).cur :: (scan c7wstate).toks ∨
        (c7wstate.toks = pre ∧ (scan c7wstate).cur = eofToken ∧
          (scan c7wstate).toks = [])) :=
  (c7_scan_skip_semantics c7wstate).1 rfl

/-- Auxiliary: the hashed byte stream is a function of the connected
projection. -/
theorem hashStream_foldl (outputs : List Output) : ∀ acc : String,
    List.foldl
      (fun acc o =>
        if o.isConnected then acc ++ o.name ++ lookupProp "EDID" o.properties
        else acc) acc outputs =
    List.foldl (fun acc p => acc ++ p.1 ++ p.2) acc (connectedKey outputs) := by
  induction outputs with
  | nil =>
    intro acc
    simp [connectedKey]
  | cons o os ih =>
    intro acc
    cases h : o.isConnected with
    | true =>
      simp only [connectedKey, List.filter_cons, h, if_true, List.map_cons,
        List.foldl_cons]
      simpa [connectedKey] using ih (acc ++ o.name ++ lookupProp "EDID" o.properties)
    | false =>
      simp only [connectedKey, List.filter_cons, h, List.foldl_cons]
      simpa [connectedKey] using ih acc

/-- C9: the output fingerprint depends only on the connected outputs and, for
each, only on its name and `EDID` property: any two output lists with the
same connected projection hash identically, for every digest function. -/
theorem c9_hash_depends_only_on_connected (md5hex : String → String)
    (o1 o2 : List Output) (h : connectedKey o1 = connectedKey o2) :
    calculateHashForOutputs md5hex o1 = calculateHashForOutputs md5hex o2 := by
  unfold calculateHashForOutputs hashStream
  rw [hashStream_foldl o1 "", hashStream_foldl o2 "", h]

/-- C9 (witness): two concrete lists differing only in a disconnected output
and a non-EDID property hash identically. -/
theorem c9_witness :
    calculateHashForOutputs id c9a = calculateHashForOutputs id c9b :=
  c9_hash_depends_only_on_connected id c9a c9b (by decide)

/-- Auxiliary: the character list underlying `String.mk`. -/
theorem data_mk (cs : List Char) : (String.mk cs).data = cs := rfl

/-- Auxiliary: `parseUintLit` on a non-empty pure digit string reduces to the
range check. -/
theorem parseUintLit_digits (ds : List Char) (hne : ds ≠ [])
    (hall : ds.all Char.isDigit = true) :
    parseUintLit (String.mk ds) =
      if natOfDigits ds ≤ 2 ^ 64 - 1 then Except.ok (natOfDigits ds)
      else Except.error "value out of range" := by
  cases ds with
  | nil => exact absurd rfl hne
  | cons a as =>
    simp [parseUintLit, hall]

/-- C4 (amended): both resolution contexts of src/xrandr/parser.go use the
single function `parseResolution` with the single pattern digits `x` digits,
with no interlace suffix in either context; a literal is accepted exactly
when it matches that pattern and both numbers fit the unsigned 64-bit range
checked by `strconv.ParseUint`. -/
theorem c4_resolution_acceptance_iff (l : String) :
    (parseResolution l).1 = true ↔
      (specModeResMatch l = true ∧
        natOfDigits (resGroups l).1 ≤ 2 ^ 64 - 1 ∧
        natOfDigits (resGroups l).2 ≤ 2 ^ 64 - 1) := by
  rcases hr : l.data.dropWhile Char.isDigit with _ | ⟨c, r2⟩
  · have hm : matchResolution l = none := by
      unfold matchResolution
      rw [hr]
    have hs : specModeResMatch l = false := by
      unfold specModeResMatch
      rw [hr]
      simp
    simp [parseResolution, hm, hs]
  · by_cases hc : c = 'x'
    · subst hc
      have hd1 : (l.data.takeWhile Char.isDigit).all Char.isDigit = true :=
        List.all_eq_true.mpr fun x hx => List.mem_takeWhile_imp hx
      have hd2 : (r2.takeWhile Char.isDigit).all Char.isDigit = true :=
        List.all_eq_true.mpr fun x hx => List.mem_takeWhile_imp hx
      have hg2 : (resGroups l).2 = r2.takeWhile Char.isDigit := by
        unfold resGroups
        rw [hr]
        simp
      have hg1 : (resGroups l).1 = l.data.takeWhile Char.isDigit := rfl
      by_cases h1 : l.data.takeWhile Char.isDigit = []
      · have hm : matchResolution l = none := by
          unfold matchResolution
          rw [hr]
          simp [h1]
        have hs : specModeResMatch l = false := by
          unfold specModeResMatch
          rw [hr]
          simp [h1]
        simp [parseResolution, hm, hs]
      · by_cases h2 : r2.takeWhile Char.isDigit = []
        · have hm : matchResolution l = none := by
            unfold matchResolution
            rw [hr]
            simp [h2]
          have hs : specModeResMatch l = false := by
            unfold specModeResMatch
            rw [hr]
            simp [h2]
          simp [parseResolution, hm, hs]
        · by_cases h3 : r2.dropWhile Char.isDigit = []
          · have hm : matchResolution l =
                some (l.data.takeWhile Char.isDigit, r2.takeWhile Char.isDigit) := by
              unfold matchResolution
              rw [hr]
              simp [h1, h2, h3]
            have hs : specModeResMatch l = true := by
              unfold specModeResMatch
              rw [hr]
              simp [h1, h2, h3]
            have hlhs : (parseResolution l).1 = true ↔
                (natOfDigits (l.data.takeWhile Char.isDigit) ≤ 2 ^ 64 - 1 ∧
                  natOfDigits (r2.takeWhile Char.isDigit) ≤ 2 ^ 64 - 1) := by
              unfold parseResolution
              rw [hm]
              dsimp only
              rw [parseUintLit_digits _ h1 hd1, parseUintLit_digits _ h2 hd2]
              split_ifs <;> simp_all
            rw [hlhs, hs, hg1, hg2]
            simp
          · have hm : matchResolution l = none := by
              unfold matchResolution
              rw [hr]
              simp [h3]
            have hs : specModeResMatch l = false := by
              unfold specModeResMatch
              rw [hr]
              simp [h3]
            simp [parseResolution, hm, hs]
    · have hm : matchResolution l = none := by
        unfold matchResolution
        rw [hr]
        dsimp only
        split
        · next heq =>
            injection heq with hch
            exact absurd hch hc
        · rfl
      have hs : specModeResMatch l = false := by
        unfold specModeResMatch
        rw [hr]
        dsimp only
        split
        · next heq =>
            injection heq with hch
            exact absurd hch hc
        · exact Bool.and_false _
      simp [parseResolution, hm, hs]

/-- Auxiliary: `scanAux` returns a token of the stream (or the end-of-input
token) and a suffix of the stream. -/
theorem scanAux_mem (b : Bool) (l : List Token) :
    ((scanAux b l).1 ∈ l ∨ (scanAux b l).1 = eofToken) ∧
      ∀ t ∈ (scanAux b l).2, t ∈ l := by
  induction l with
  | nil =>
    constructor
    · exact Or.inr rfl
    · intro t ht
      simp [scanAux] at ht
  | cons u us ih =>
    by_cases h : b ∧ u.type = TokenType.WhiteSpace
    · have hred : scanAux b (u :: us) = scanAux b us := by
        simp [scanAux, h.1, h.2]
      rw [hred]
      obtain ⟨ih1, ih2⟩ := ih
      constructor
      · rcases ih1 with hmem | heof
        · exact Or.inl (List.mem_cons_of_mem u hmem)
        · exact Or.inr heof
      · intro t ht
        exact List.mem_cons_of_mem u (ih2 t ht)
    · have hred : scanAux b (u :: us) = (u, us) := by
        rcases Decidable.not_and_iff_or_not.mp h with hb | ht
        · cases b
          · simp [scanAux]
          · exact absurd rfl hb
        · simp [scanAux, ht]
      rw [hred]
      constructor
      · exact Or.inl (List.mem_cons_self u us)
      · intro t ht
        exact List.mem_cons_of_mem u ht

/-- Auxiliary: `scan` preserves token provenance. -/
theorem invT_scan {T : List Token} {s : PState} (h : InvT T s) :
    InvT T (scan s) := by
  obtain ⟨h1, h2⟩ := h
  obtain ⟨ha, hb⟩ := scanAux_mem s.skipWS s.toks
  constructor
  · intro t ht
    exact h1 t (hb t ht)
  · rcases ha with hmem | heof
    · exact Or.inl (h1 _ hmem)
    · exact Or.inr heof

/-- Auxiliary: toggling the whitespace flag preserves token provenance. -/
theorem invT_skipWS {T : List Token} {s : PState} (b : Bool) (h : InvT T s) :
    InvT T { s with skipWS := b } := h

/-- Auxiliary: the state after `skipT` is the old state or one scan ahead. -/
theorem skipT_state (t : TokenType) (s : PState) :
    (skipT t s).2 = scan s ∨ (skipT t s).2 = s := by
  unfold skipT
  split
  · exact Or.inl rfl
  · exact Or.inr rfl

/-- Auxiliary: the state after `skipWithLiteral` is the old state or one scan
ahead. -/
theorem skipWithLiteral_state (t : TokenType) (l : String) (s : PState) :
    (skipWithLiteral t l s).2 = scan s ∨ (skipWithLiteral t l s).2 = s := by
  unfold skipWithLiteral
  rcases hS : skipT t s with ⟨e, s2⟩
  have := skipT_state t s
  rw [hS] at this
  cases e with
  | none =>
    dsimp only
    split
    · exact this
    · exact this
  | some e => exact this

/-- Auxiliary: `skipT` preserves token provenance. -/
theorem invT_skipT {T : List Token} {s : PState} (t : TokenType)
    (h : InvT T s) : InvT T (skipT t s).2 := by
  rcases skipT_state t s with he | he
  · rw [he]; exact invT_scan h
  · rw [he]; exact h

/-- Auxiliary: `skipWithLiteral` preserves token provenance. -/
theorem invT_skipWithLiteral {T : List Token} {s : PState} (t : TokenType)
    (l : String) (h : InvT T s) : InvT T (skipWithLiteral t l s).2 := by
  rcases skipWithLiteral_state t l s with he | he
  · rw [he]; exact invT_scan h
  · rw [he]; exact h

/-- Auxiliary: a successful `expectT` returns the current token (whose type
matched) and the scanned state. -/
theorem expectT_ok {t : TokenType} {s : PState} {tok : Token} {s' : PState}
    (h : expectT t s = (Except.ok tok, s')) :
    tok = s.cur ∧ s' = scan s ∧ s.cur.type = t := by
  unfold expectT at h
  split at h
  · next hc =>
      obtain ⟨h1, h2⟩ := Prod.mk.injEq .. ▸ h
      injection h1 with h1
      exact ⟨h1.symm, h2.symm, hc⟩
  · next hc =>
      exfalso
      obtain ⟨h1, _⟩ := Prod.mk.injEq .. ▸ h
      exact Except.noConfusion h1

/-- Auxiliary: the fold underlying `eagerAll` preserves any property every
step preserves (the error component never influences the state). -/
theorem eagerAll_foldl_pres (P : PState → Prop)
    (steps : List (PState → Option String × PState))
    (hsteps : ∀ f ∈ steps, ∀ s, P s → P (f s).2) :
    ∀ acc : Option String × PState, P acc.2 →
      P (steps.foldl
          (fun acc step =>
            (match acc.1 with
             | some e => some e
             | none => (step acc.2).1, (step acc.2).2)) acc).2 := by
  induction steps with
  | nil =>
    intro acc h
    simpa using h
  | cons f fs ih =>
    intro acc h
    have hf : P (f acc.2).2 := hsteps f (List.mem_cons_self f fs) acc.2 h
    have hfs : ∀ g ∈ fs, ∀ s, P s → P (g s).2 := fun g hg =>
      hsteps g (List.mem_cons_of_mem f hg)
    have := ih hfs
      ((match acc.1 with
        | some e => some e
        | none => (f acc.2).1), (f acc.2).2) hf
    simpa [List.foldl_cons] using this

/-- Auxiliary: `eagerAll` preserves any property every step preserves. -/
theorem eagerAll_pres (P : PState → Prop)
    (steps : List (PState → Option String × PState))
    (hsteps : ∀ f ∈ steps, ∀ s, P s → P (f s).2) (s : PState) (h : P s) :
    P (eagerAll steps s).2 := by
  simpa [eagerAll] using eagerAll_foldl_pres P steps hsteps (none, s) h

/-- Auxiliary: `parseScreen` preserves token provenance. -/
theorem parseScreen_invT {T : List Token} {s : PState} (h : InvT T s) :
    InvT T (parseScreen s).2 := by
  unfold parseScreen
  refine eagerAll_pres _ _ ?_ s h
  intro f hf s2 hs
  simp only [List.mem_cons, List.not_mem_nil, or_false] at hf
  rcases hf with rfl|rfl|rfl|rfl|rfl|rfl|rfl|rfl|rfl|rfl|rfl|rfl|rfl|rfl|rfl|rfl|rfl|rfl
  all_goals first
    | exact invT_skipWithLiteral _ _ hs
    | exact invT_skipT _ hs

/-- Auxiliary: the rotation/reflection legend step preserves token
provenance. -/
theorem rotKey_invT {T : List Token} {s : PState} (h : InvT T s) :
    InvT T (parseOutputRotationAndReflectionKey s).2 := by
  unfold parseOutputRotationAndReflectionKey
  refine eagerAll_pres _ _ ?_ _ (invT_skipWS true h)
  intro f hf s2 hs
  simp only [List.mem_cons, List.not_mem_nil, or_false] at hf
  rcases hf with rfl|rfl|rfl|rfl|rfl|rfl|rfl|rfl|rfl|rfl
  all_goals exact invT_skipWithLiteral _ _ hs

/-- Auxiliary: parsing a pure digit literal as a signed integer never yields
a negative value. -/
theorem parseIntLit_nonneg {lit : String} {n : Int}
    (hd : lit.data.all Char.isDigit = true) (h : parseIntLit lit = Except.ok n) :
    0 ≤ n := by
  unfold parseIntLit at h
  rcases hld : lit.data with _ | ⟨c, ds⟩
  · rw [hld] at h
    simp at h
  · rw [hld] at h hd
    simp only [List.all_cons, Bool.and_eq_true] at hd
    split at h
    · next heq => simp at heq
    · next ds2 heq =>
        injection heq with hc _
        subst hc
        exact absurd hd.1 (by decide)
    · next ds2 heq =>
        injection heq with hc _
        subst hc
        exact absurd hd.1 (by decide)
    · next =>
        split_ifs at h
        injection h with h
        rw [← h]
        exact Int.natCast_nonneg _

/-- Auxiliary: under token provenance and the digit guarantee, a current
`IntValue` token has a pure digit literal. -/
theorem invT_digits {T : List Token} {s : PState} (hs : InvT T s)
    (hdig : IntLitsDigits T) (ht : s.cur.type = TokenType.IntValue) :
    s.cur.literal.data.all Char.isDigit = true := by
  rcases hs.2 with hmem | heof
  · exact hdig _ hmem ht
  · rw [heof] at ht
    exact absurd ht (by decide)

/-- Auxiliary: `parseOutputName` preserves token provenance and the
position. -/
theorem parseOutputName_facts {T : List Token} {o o' : Output} {s s' : PState}
    (h : parseOutputName o s = PRes.ok (o', s')) (hs : InvT T s) :
    InvT T s' ∧ o'.position = o.position := by
  unfold parseOutputName at h
  dsimp only at h
  rcases hE : expectT TokenType.Name { s with skipWS := true } with ⟨res, s2⟩
  rw [hE] at h
  cases res with
  | error e => simp at h
  | ok tok =>
    simp only [PRes.ok.injEq, Prod.mk.injEq] at h
    obtain ⟨ho, hsx⟩ := h
    subst hsx
    obtain ⟨_, hscan, _⟩ := expectT_ok hE
    rw [← ho, hscan]
    exact ⟨invT_scan (invT_skipWS true hs), rfl⟩

/-- Auxiliary: `parseOutputStatus` preserves token provenance and the
position. -/
theorem parseOutputStatus_facts {T : List Token} {o o' : Output} {s s' : PState}
    (h : parseOutputStatus o s = PRes.ok (o', s')) (hs : InvT T s) :
    InvT T s' ∧ o'.position = o.position := by
  have h1 := invT_scan (invT_skipWS (T := T) true hs)
  have h2 := invT_scan h1
  have h3 := invT_scan h2
  unfold parseOutputStatus at h
  dsimp only at h
  split at h
  all_goals try dsimp only at h
  all_goals split at h
  all_goals
    simp only [PRes.ok.injEq, Prod.mk.injEq] at h
  all_goals obtain ⟨ho, hsx⟩ := h
  all_goals subst hsx
  all_goals rw [← ho]
  all_goals refine ⟨?_, rfl⟩
  all_goals first | exact h1 | exact h2 | exact h3

/-- Auxiliary: `parseResolutionAndPosition` preserves token provenance, and
either leaves the position untouched or sets both offsets to parsed values of
pure digit `IntValue` literals, which are non-negative. -/
theorem parseResolutionAndPosition_facts {T : List Token} {o o' : Output}
    {s s' : PState} (h : parseResolutionAndPosition o s = PRes.ok (o', s'))
    (hs : InvT T s) (hdig : IntLitsDigits T) :
    InvT T s' ∧ (o'.position = o.position ∨ PosOK o') := by
  have hsT : InvT T { s with skipWS := true } := hs
  unfold parseResolutionAndPosition at h
  dsimp only at h
  split at h
  · rcases hR : parseResolution s.cur.literal with ⟨flag, res⟩
    rw [hR] at h
    cases flag with
    | false =>
      simp only [PRes.ok.injEq, Prod.mk.injEq] at h
      obtain ⟨ho, hsx⟩ := h
      subst hsx
      rw [← ho]
      exact ⟨hsT, Or.inl rfl⟩
    | true =>
      dsimp only at h
      have h1 : InvT T (scan { s with skipWS := true }) := invT_scan hsT
      rcases hW1 : skipWithLiteral TokenType.Punctuator "+"
          (scan { s with skipWS := true }) with ⟨e1, s3⟩
      rw [hW1] at h
      cases e1 with
      | some e => simp at h
      | none =>
        dsimp only at h
        have h3 : InvT T s3 := by
          have := invT_skipWithLiteral (T := T) TokenType.Punctuator "+" h1
          rw [hW1] at this
          exact this
        rcases hE1 : expectT TokenType.IntValue s3 with ⟨r1, s4⟩
        rw [hE1] at h
        cases r1 with
        | error e => simp at h
        | ok tokX =>
          dsimp only at h
          obtain ⟨htokX, hs4, hty3⟩ := expectT_ok hE1
          have h4 : InvT T s4 := by
            rw [hs4]
            exact invT_scan h3
          have hdigX : tokX.literal.data.all Char.isDigit = true := by
            rw [htokX]
            exact invT_digits h3 hdig hty3
          rcases hI1 : parseIntLit tokX.literal with eI1 | x
          · rw [hI1] at h
            simp at h
          · rw [hI1] at h
            dsimp only at h
            rcases hW2 : skipWithLiteral TokenType.Punctuator "+" s4 with ⟨e2, s5⟩
            rw [hW2] at h
            cases e2 with
            | some e => simp at h
            | none =>
              dsimp only at h
              have h5 : InvT T s5 := by
                have := invT_skipWithLiteral (T := T) TokenType.Punctuator "+" h4
                rw [hW2] at this
                exact this
              rcases hE2 : expectT TokenType.IntValue s5 with ⟨r2, s6⟩
              rw [hE2] at h
              cases r2 with
              | error e => simp at h
              | ok tokY =>
                dsimp only at h
                obtain ⟨htokY, hs6, hty5⟩ := expectT_ok hE2
                have h6 : InvT T s6 := by
                  rw [hs6]
                  exact invT_scan h5
                have hdigY : tokY.literal.data.all Char.isDigit = true := by
                  rw [htokY]
                  exact invT_digits h5 hdig hty5
                rcases hI2 : parseIntLit tokY.literal with eI2 | y
                · rw [hI2] at h
                  simp at h
                · rw [hI2] at h
                  simp only [PRes.ok.injEq, Prod.mk.injEq] at h
                  obtain ⟨ho, hsx⟩ := h
                  subst hsx
                  rw [← ho]
                  refine ⟨h6, Or.inr ⟨?_, ?_⟩⟩
                  · exact parseIntLit_nonneg hdigX hI1
                  · exact parseIntLit_nonneg hdigY hI2
  · simp only [PRes.ok.injEq, Prod.mk.injEq] at h
    obtain ⟨ho, hsx⟩ := h
    subst hsx
    rw [← ho]
    exact ⟨hsT, Or.inl rfl⟩

set_option maxHeartbeats 2000000 in
/-- Auxiliary: `parseOutputRotationAndReflection` preserves token provenance
and the position. -/
theorem parseOutputRotationAndReflection_facts {T : List Token}
    {o o' : Output} {s s' : PState}
    (h : parseOutputRotationAndReflection o s = PRes.ok (o', s'))
    (hs : InvT T s) : InvT T s' ∧ o'.position = o.position := by
  have h0 : InvT T { s with skipWS := true } := hs
  have h1 := invT_scan h0
  have h2 := invT_scan h1
  have h3 := invT_scan h2
  unfold parseOutputRotationAndReflection at h
  dsimp only at h
  all_goals try split at h
  all_goals try dsimp only at h
  all_goals try split at h
  all_goals try dsimp only at h
  all_goals try split at h
  all_goals try dsimp only at h
  all_goals try split at h
  all_goals try dsimp only at h
  all_goals try split at h
  all_goals try dsimp only at h
  all_goals try split at h
  all_goals try dsimp only at h
  all_goals try split at h
  all_goals try dsimp only at h
  all_goals try split at h
  all_goals simp only [PRes.ok.injEq, Prod.mk.injEq] at h
  all_goals obtain ⟨ho, hsx⟩ := h
  all_goals subst hsx
  all_goals rw [← ho]
  all_goals
    exact ⟨by first | exact h0 | exact h1 | exact h2 | exact h3,
      by first | rfl | (split_ifs <;> rfl)⟩

/-- Auxiliary: `parseOutputDimension` preserves token provenance. -/
theorem parseOutputDimension_facts {T : List Token} {s s' : PState} {n : Nat}
    (h : parseOutputDimension s = PRes.ok (n, s')) (hs : InvT T s) :
    InvT T s' := by
  have hsT : InvT T { s with skipWS := true } := hs
  unfold parseOutputDimension at h
  dsimp only at h
  rcases hE : expectT TokenType.Name { s with skipWS := true } with ⟨res, s2⟩
  rw [hE] at h
  cases res with
  | error e => simp at h
  | ok tok =>
    dsimp only at h
    have h2 : InvT T s2 := by
      rw [(expectT_ok hE).2.1]
      exact invT_scan hsT
    split at h
    · simp only [PRes.ok.injEq, Prod.mk.injEq] at h
      obtain ⟨_, hsx⟩ := h
      subst hsx
      exact h2
    · split at h
      · simp at h
      · simp only [PRes.ok.injEq, Prod.mk.injEq] at h
        obtain ⟨_, hsx⟩ := h
        subst hsx
        exact h2

/-- Auxiliary: `parseOutputDimensions` preserves token provenance and the
position. -/
theorem parseOutputDimensions_facts {T : List Token} {o o' : Output}
    {s s' : PState} (h : parseOutputDimensions o s = PRes.ok (o', s'))
    (hs : InvT T s) : InvT T s' ∧ o'.position = o.position := by
  have hsT : InvT T { s with skipWS := true } := hs
  unfold parseOutputDimensions at h
  dsimp only at h
  split at h
  · split at h
    · simp only [PRes.ok.injEq, Prod.mk.injEq] at h
      obtain ⟨ho, hsx⟩ := h
      subst hsx
      rw [← ho]
      exact ⟨invT_scan hsT, rfl⟩
    · simp only [PRes.ok.injEq, Prod.mk.injEq] at h
      obtain ⟨ho, hsx⟩ := h
      subst hsx
      rw [← ho]
      exact ⟨hsT, rfl⟩
  · rcases hD1 : parseOutputDimension { s with skipWS := true } with a | e
    rotate_left
    · rw [hD1] at h
      simp at h
    · rw [hD1] at h
      simp at h
    · rcases a with ⟨xdim, s3⟩
      rw [hD1] at h
      dsimp only at h
      have h3 : InvT T s3 := parseOutputDimension_facts hD1 hsT
      rcases hW : skipWithLiteral TokenType.Name "x" s3 with ⟨e1, s4⟩
      rw [hW] at h
      cases e1 with
      | some e => simp at h
      | none =>
        dsimp only at h
        have h4 : InvT T s4 := by
          have := invT_skipWithLiteral (T := T) TokenType.Name "x" h3
          rw [hW] at this
          exact this
        rcases hD2 : parseOutputDimension s4 with a2 | e2
        rotate_left
        · rw [hD2] at h
          simp at h
        · rw [hD2] at h
          simp at h
        · rcases a2 with ⟨ydim, s5⟩
          rw [hD2] at h
          simp only [PRes.ok.injEq, Prod.mk.injEq] at h
          obtain ⟨ho, hsx⟩ := h
          subst hsx
          rw [← ho]
          exact ⟨parseOutputDimension_facts hD2 h4, rfl⟩

/-- Auxiliary: the property-name loop preserves token provenance. -/
theorem propNameLoop_invT {T : List Token} :
    ∀ (fuel : Nat) (name : String) (s : PState) (nm : String) (s' : PState),
      propNameLoop fuel name s = PRes.ok (nm, s') → InvT T s → InvT T s' := by
  intro fuel
  induction fuel with
  | zero =>
    intro name s nm s' h _
    simp [propNameLoop] at h
  | succ n ih =>
    intro name s nm s' h hs
    unfold propNameLoop at h
    split at h
    · simp only [PRes.ok.injEq, Prod.mk.injEq] at h
      obtain ⟨_, hsx⟩ := h
      subst hsx
      exact hs
    · exact ih _ _ _ _ h (invT_scan hs)

/-- Auxiliary: the value-accumulation loop preserves token provenance. -/
theorem propValueLoop_invT {T : List Token} :
    ∀ (fuel : Nat) (value : String) (s : PState) (v : String) (s' : PState),
      propValueLoop fuel value s = PRes.ok (v, s') → InvT T s → InvT T s' := by
  intro fuel
  induction fuel with
  | zero =>
    intro value s v s' h _
    simp [propValueLoop] at h
  | succ n ih =>
    intro value s v s' h hs
    unfold propValueLoop at h
    dsimp only at h
    split at h
    · simp only [PRes.ok.injEq, Prod.mk.injEq] at h
      obtain ⟨_, hsx⟩ := h
      subst hsx
      exact invT_scan hs
    · exact ih _ _ _ _ h (invT_scan hs)

/-- Auxiliary: the line-skipping loop preserves token provenance. -/
theorem propSkipLineLoop_invT {T : List Token} :
    ∀ (fuel : Nat) (s s' : PState),
      propSkipLineLoop fuel s = PRes.ok s' → InvT T s → InvT T s' := by
  intro fuel
  induction fuel with
  | zero =>
    intro s s' h _
    simp [propSkipLineLoop] at h
  | succ n ih =>
    intro s s' h hs
    unfold propSkipLineLoop at h
    dsimp only at h
    split at h
    · simp only [PRes.ok.injEq] at h
      subst h
      exact invT_scan hs
    · exact ih _ _ h (invT_scan hs)

/-- Auxiliary: the appending continuation loop preserves token provenance. -/
theorem propContValueLoop_invT {T : List Token} :
    ∀ (fuel : Nat) (value : String) (s : PState) (v : String) (s' : PState),
      propContValueLoop fuel value s = PRes.ok (v, s') → InvT T s → InvT T s' := by
  intro fuel
  induction fuel with
  | zero =>
    intro value s v s' h _
    simp [propContValueLoop] at h
  | succ n ih =>
    intro value s v s' h hs
    unfold propContValueLoop at h
    dsimp only at h
    split at h
    · simp only [PRes.ok.injEq, Prod.mk.injEq] at h
      obtain ⟨_, hsx⟩ := h
      subst hsx
      exact invT_scan hs
    · split at h
      · simp only [PRes.ok.injEq, Prod.mk.injEq] at h
        obtain ⟨_, hsx⟩ := h
        subst hsx
        exact invT_scan (invT_scan hs)
      · rcases hL : propValueLoop ((scan (scan s)).toks.length + 2) value
            (scan (scan s)) with a | e
        rotate_left
        · rw [hL] at h
          simp at h
        · rw [hL] at h
          simp at h
        · rcases a with ⟨v2, s3⟩
          rw [hL] at h
          have h3 : InvT T s3 :=
            propValueLoop_invT _ _ _ _ _ hL (invT_scan (invT_scan hs))
          exact ih _ _ _ _ h h3

/-- Auxiliary: the skipping continuation loop preserves token provenance. -/
theorem propSkipContLoop_invT {T : List Token} :
    ∀ (fuel : Nat) (s s' : PState),
      propSkipContLoop fuel s = PRes.ok s' → InvT T s → InvT T s' := by
  intro fuel
  induction fuel with
  | zero =>
    intro s s' h _
    simp [propSkipContLoop] at h
  | succ n ih =>
    intro s s' h hs
    unfold propSkipContLoop at h
    dsimp only at h
    split at h
    · simp only [PRes.ok.injEq] at h
      subst h
      exact invT_scan hs
    · split at h
      · simp only [PRes.ok.injEq] at h
        subst h
        exact invT_scan (invT_scan hs)
      · rcases hL : propSkipLineLoop ((scan (scan s)).toks.length + 2)
            (scan (scan s)) with s3 | e
        rotate_left
        · rw [hL] at h
          simp at h
        · rw [hL] at h
          simp at h
        · rw [hL] at h
          have h3 : InvT T s3 :=
            propSkipLineLoop_invT _ _ _ hL (invT_scan (invT_scan hs))
          exact ih _ _ h h3

/-- Auxiliary: `parseProperty` preserves token provenance and the position. -/
theorem parseProperty_facts {T : List Token} {o o' : Output} {s s' : PState}
    (h : parseProperty o s = PRes.ok (o', s')) (hs : InvT T s) :
    InvT T s' ∧ o'.position = o.position := by
  unfold parseProperty at h
  rcases hE : expectT TokenType.Name s with ⟨res, s2⟩
  rw [hE] at h
  cases res with
  | error e => simp at h
  | ok tok =>
    dsimp only at h
    have h2 : InvT T s2 := by
      rw [(expectT_ok hE).2.1]
      exact invT_scan hs
    rcases hN : propNameLoop (s2.toks.length + 2) tok.literal s2 with a | e
    rotate_left
    · rw [hN] at h
      simp at h
    · rw [hN] at h
      simp at h
    · rcases a with ⟨name, s3⟩
      rw [hN] at h
      dsimp only at h
      have h3 : InvT T s3 := propNameLoop_invT _ _ _ _ _ hN h2
      rcases hW1 : skipWithLiteral TokenType.Punctuator ":" s3 with ⟨e1, s4⟩
      rw [hW1] at h
      have h4 : InvT T s4 := by
        have := invT_skipWithLiteral (T := T) TokenType.Punctuator ":" h3
        rw [hW1] at this
        exact this
      rcases hW2 : skipWithLiteral TokenType.WhiteSpace " " s4 with ⟨e2, s5⟩
      rw [hW2] at h
      have h5 : InvT T s5 := by
        have := invT_skipWithLiteral (T := T) TokenType.WhiteSpace " " h4
        rw [hW2] at this
        exact this
      dsimp only at h
      cases e1 with
      | some e => simp at h
      | none =>
        cases e2 with
        | some e => simp at h
        | none =>
          dsimp only at h
          split at h
          · rcases hC : propContValueLoop (s5.toks.length + 2) "" s5 with a | e
            rotate_left
            · rw [hC] at h
              simp at h
            · rw [hC] at h
              simp at h
            · rcases a with ⟨value, s6⟩
              rw [hC] at h
              simp only [PRes.ok.injEq, Prod.mk.injEq] at h
              obtain ⟨ho, hsx⟩ := h
              subst hsx
              rw [← ho]
              exact ⟨propContValueLoop_invT _ _ _ _ _ hC h5, rfl⟩
          · split at h
            · rcases hV : propValueLoop (s5.toks.length + 2) s5.cur.literal s5
                  with a | e
              rotate_left
              · rw [hV] at h
                simp at h
              · rw [hV] at h
                simp at h
              · rcases a with ⟨value, s6⟩
                rw [hV] at h
                dsimp only at h
                have h6 : InvT T s6 := propValueLoop_invT _ _ _ _ _ hV h5
                rcases hK : propSkipContLoop (s6.toks.length + 2) s6 with s7 | e
                rotate_left
                · rw [hK] at h
                  simp at h
                · rw [hK] at h
                  simp at h
                · rw [hK] at h
                  simp only [PRes.ok.injEq, Prod.mk.injEq] at h
                  obtain ⟨ho, hsx⟩ := h
                  subst hsx
                  rw [← ho]
                  exact ⟨propSkipContLoop_invT _ _ _ hK h6, rfl⟩
            · simp only [PRes.ok.injEq, Prod.mk.injEq] at h
              obtain ⟨ho, hsx⟩ := h
              subst hsx
              rw [← ho]
              exact ⟨h5, rfl⟩

/-- Auxiliary: the property-block loop preserves token provenance and the
position. -/
theorem parsePropertiesLoop_facts {T : List Token} :
    ∀ (fuel : Nat) (o : Output) (s : PState) (o' : Output) (s' : PState),
      parsePropertiesLoop fuel o s = PRes.ok (o', s') → InvT T s →
        InvT T s' ∧ o'.position = o.position := by
  intro fuel
  induction fuel with
  | zero =>
    intro o s o' s' h _
    simp [parsePropertiesLoop] at h
  | succ n ih =>
    intro o s o' s' h hs
    unfold parsePropertiesLoop at h
    split at h
    · simp only [PRes.ok.injEq, Prod.mk.injEq] at h
      obtain ⟨ho, hsx⟩ := h
      subst hsx
      rw [← ho]
      exact ⟨hs, rfl⟩
    · dsimp only at h
      rcases hP : parseProperty o (scan s) with a | e
      rotate_left
      · rw [hP] at h
        simp at h
      · rw [hP] at h
        simp at h
      · rcases a with ⟨o2, s2⟩
        rw [hP] at h
        obtain ⟨h2, hpos2⟩ := parseProperty_facts hP (invT_scan hs)
        obtain ⟨h3, hpos3⟩ := ih _ _ _ _ h h2
        exact ⟨h3, by rw [hpos3, hpos2]⟩

/-- Auxiliary: `parseProperties` preserves token provenance and the
position. -/
theorem parseProperties_facts {T : List Token} {o o' : Output} {s s' : PState}
    (h : parseProperties o s = PRes.ok (o', s')) (hs : InvT T s) :
    InvT T s' ∧ o'.position = o.position := by
  unfold parseProperties at h
  exact parsePropertiesLoop_facts _ _ _ _ _ h (invT_skipWS false hs)

/-- Auxiliary: the rate loop preserves token provenance. -/
theorem parseRatesLoop_invT {T : List Token} :
    ∀ (fuel : Nat) (rates : List Rate) (s : PState) (rs : List Rate)
      (s' : PState),
      parseRatesLoop fuel rates s = PRes.ok (rs, s') → InvT T s → InvT T s' := by
  intro fuel
  induction fuel with
  | zero =>
    intro rates s rs s' h _
    simp [parseRatesLoop] at h
  | succ n ih =>
    intro rates s rs s' h hs
    unfold parseRatesLoop at h
    split at h
    · simp only [PRes.ok.injEq, Prod.mk.injEq] at h
      obtain ⟨_, hsx⟩ := h
      subst hsx
      exact hs
    · rcases hF : parseFloatLit s.cur.literal with e | q
      · rw [hF] at h
        simp at h
      · rw [hF] at h
        dsimp only at h
        split at h
        all_goals dsimp only at h
        all_goals split at h
        all_goals dsimp only at h
        all_goals
          first
            | exact ih _ _ _ _ h (invT_scan (invT_scan (invT_scan hs)))
            | exact ih _ _ _ _ h (invT_scan (invT_scan hs))
            | exact ih _ _ _ _ h (invT_scan hs)

/-- Auxiliary: the mode loop preserves token provenance and the position. -/
theorem parseModesLoop_facts {T : List Token} :
    ∀ (fuel : Nat) (o : Output) (s : PState) (o' : Output) (s' : PState),
      parseModesLoop fuel o s = PRes.ok (o', s') → InvT T s →
        InvT T s' ∧ o'.position = o.position := by
  intro fuel
  induction fuel with
  | zero =>
    intro o s o' s' h _
    simp [parseModesLoop] at h
  | succ n ih =>
    intro o s o' s' h hs
    unfold parseModesLoop at h
    split at h
    · simp only [PRes.ok.injEq, Prod.mk.injEq] at h
      obtain ⟨ho, hsx⟩ := h
      subst hsx
      rw [← ho]
      exact ⟨hs, rfl⟩
    · rcases hR : parseResolution s.cur.literal with ⟨flag, res⟩
      rw [hR] at h
      cases flag with
      | false => simp at h
      | true =>
        dsimp only at h
        rcases hRL : parseRatesLoop ((scan s).toks.length + 2) [] (scan s)
            with a | e
        rotate_left
        · rw [hRL] at h
          simp at h
        · rw [hRL] at h
          simp at h
        · rcases a with ⟨rates, s2⟩
          rw [hRL] at h
          have h2 : InvT T s2 := parseRatesLoop_invT _ _ _ _ _ hRL (invT_scan hs)
          obtain ⟨h3, hpos3⟩ := ih _ _ _ _ h h2
          exact ⟨h3, by rw [hpos3]⟩

/-- Auxiliary: `parseModes` preserves token provenance and the position. -/
theorem parseModes_facts {T : List Token} {o o' : Output} {s s' : PState}
    (h : parseModes o s = PRes.ok (o', s')) (hs : InvT T s) :
    InvT T s' ∧ o'.position = o.position := by
  have hsT : InvT T { s with skipWS := true } := hs
  unfold parseModes at h
  dsimp only at h
  split at h
  · simp only [PRes.ok.injEq, Prod.mk.injEq] at h
    obtain ⟨ho, hsx⟩ := h
    subst hsx
    rw [← ho]
    exact ⟨hsT, rfl⟩
  · exact parseModesLoop_facts _ _ _ _ _ h (invT_scan hsT)

/-- Auxiliary: equal positions transport non-negativity. -/
theorem posOK_congr {o o' : Output} (hp : o'.position = o.position)
    (h : PosOK o) : PosOK o' := by
  unfold PosOK at h ⊢
  rw [hp]
  exact h

/-- Auxiliary: a successfully parsed output has non-negative offsets, and
`parseOutput` preserves token provenance. -/
theorem parseOutput_facts {T : List Token} {s s' : PState} {o : Output}
    (h : parseOutput s = PRes.ok (o, s')) (hs : InvT T s)
    (hdig : IntLitsDigits T) : InvT T s' ∧ PosOK o := by
  unfold parseOutput at h
  dsimp only at h
  have hbase : PosOK outputZero := ⟨by decide, by decide⟩
  rcases hA : parseOutputName outputZero s with a | e
  rotate_left
  · rw [hA] at h
    simp at h
  · rw [hA] at h
    simp at h
  · rcases a with ⟨o1, s1⟩
    rw [hA] at h
    dsimp only at h
    obtain ⟨hi1, hp1⟩ := parseOutputName_facts hA hs
    have hb1 : PosOK o1 := posOK_congr hp1 hbase
    rcases hB : parseOutputStatus o1 s1 with a | e
    rotate_left
    · rw [hB] at h
      simp at h
    · rw [hB] at h
      simp at h
    · rcases a with ⟨o2, s2⟩
      rw [hB] at h
      dsimp only at h
      obtain ⟨hi2, hp2⟩ := parseOutputStatus_facts hB hi1
      have hb2 : PosOK o2 := posOK_congr hp2 hb1
      rcases hC : parseResolutionAndPosition o2 s2 with a | e
      rotate_left
      · rw [hC] at h
        simp at h
      · rw [hC] at h
        simp at h
      · rcases a with ⟨o3, s3⟩
        rw [hC] at h
        dsimp only at h
        obtain ⟨hi3, hp3⟩ := parseResolutionAndPosition_facts hC hi2 hdig
        have hb3 : PosOK o3 := by
          rcases hp3 with hp3 | hp3
          · exact posOK_congr hp3 hb2
          · exact hp3
        rcases hD : parseOutputRotationAndReflection o3 s3 with a | e
        rotate_left
        · rw [hD] at h
          simp at h
        · rw [hD] at h
          simp at h
        · rcases a with ⟨o4, s4⟩
          rw [hD] at h
          dsimp only at h
          obtain ⟨hi4, hp4⟩ := parseOutputRotationAndReflection_facts hD hi3
          have hb4 : PosOK o4 := posOK_congr hp4 hb3
          rcases hE : parseOutputRotationAndReflectionKey s4 with ⟨eK, s5⟩
          rw [hE] at h
          cases eK with
          | some e => simp at h
          | none =>
            dsimp only at h
            have hi5 : InvT T s5 := by
              have := rotKey_invT (T := T) hi4
              rw [hE] at this
              exact this
            rcases hF : parseOutputDimensions o4 s5 with a | e
            rotate_left
            · rw [hF] at h
              simp at h
            · rw [hF] at h
              simp at h
            · rcases a with ⟨o5, s6⟩
              rw [hF] at h
              dsimp only at h
              obtain ⟨hi6, hp5⟩ := parseOutputDimensions_facts hF hi5
              have hb5 : PosOK o5 := posOK_congr hp5 hb4
              rcases hG : parseProperties o5 s6 with a | e
              rotate_left
              · rw [hG] at h
                simp at h
              · rw [hG] at h
                simp at h
              · rcases a with ⟨o6, s7⟩
                rw [hG] at h
                dsimp only at h
                obtain ⟨hi7, hp6⟩ := parseProperties_facts hG hi6
                have hb6 : PosOK o6 := posOK_congr hp6 hb5
                rcases hH : parseModes o6 s7 with a | e
                rotate_left
                · rw [hH] at h
                  simp at h
                · rw [hH] at h
                  simp at h
                · rcases a with ⟨o7, s8⟩
                  rw [hH] at h
                  simp only [PRes.ok.injEq, Prod.mk.injEq] at h
                  obtain ⟨ho, hsx⟩ := h
                  subst hsx
                  obtain ⟨hi8, hp7⟩ := parseModes_facts hH hi7
                  rw [← ho]
                  exact ⟨hi8, posOK_congr hp7 hb6⟩

/-- Auxiliary: every output the top-level loop accumulates has non-negative
offsets. -/
theorem parsePropsLoop_pos {T : List Token} :
    ∀ (fuel : Nat) (props props' : PropsOutput) (s : PState)
      (err : Option String),
      parsePropsLoop fuel props s = POut.ret props' err → InvT T s →
      IntLitsDigits T → (∀ o ∈ props.outputs, PosOK o) →
      ∀ o ∈ props'.outputs, PosOK o := by
  intro fuel
  induction fuel with
  | zero =>
    intro props props' s err h _ _ _
    simp [parsePropsLoop] at h
  | succ n ih =>
    intro props props' s err h hs hdig hacc
    unfold parsePropsLoop at h
    rcases hP : parseOutput s with a | e
    rotate_left
    · rw [hP] at h
      simp only [POut.ret.injEq] at h
      obtain ⟨h1, _⟩ := h
      rw [← h1]
      exact hacc
    · rw [hP] at h
      simp at h
    · rcases a with ⟨o1, s1⟩
      rw [hP] at h
      dsimp only at h
      obtain ⟨hi1, hpos⟩ := parseOutput_facts hP hs hdig
      have hacc1 : ∀ o ∈ props.outputs ++ [o1], PosOK o := by
        intro o ho
        rcases List.mem_append.mp ho with ho | ho
        · exact hacc o ho
        · rw [List.mem_singleton.mp ho]
          exact hpos
      split at h
      · simp only [POut.ret.injEq] at h
        obtain ⟨h1, _⟩ := h
        rw [← h1]
        exact hacc1
      · exact ih _ _ _ _ h hi1 hdig hacc1

/-- C10: every output of a successful parse has non-negative position
offsets, provided every `IntValue` token of the stream carries a pure digit
literal (which is how the lexer classifies `IntValue`): the position grammar
only ever stores values parsed from such unsigned literals. -/
theorem c10_offsets_nonneg (toks : List Token) (props : PropsOutput)
    (hdig : IntLitsDigits toks)
    (hok : ParseProps toks = POut.ret props none) :
    ∀ o ∈ props.outputs,
      0 ≤ o.position.offsetX ∧ 0 ≤ o.position.offsetY := by
  unfold ParseProps at hok
  dsimp only at hok
  have hs0 : InvT toks (scan ⟨toks, eofToken, true⟩) :=
    invT_scan ⟨fun t ht => ht, Or.inr rfl⟩
  rcases hS : parseScreen (scan ⟨toks, eofToken, true⟩) with ⟨eS, s1⟩
  rw [hS] at hok
  cases eS with
  | some e => simp at hok
  | none =>
    have hs1 : InvT toks s1 := by
      have := parseScreen_invT (T := toks) hs0
      rw [hS] at this
      exact this
    intro o ho
    exact parsePropsLoop_pos _ _ _ _ _ hok hs1 hdig (by simp) o ho

/-- C10 (witness): the invariant at a concrete successfully parsed buffer
with an enabled output at `+0+0`. -/
theorem c10_witness :
    0 ≤ c10wexpected.position.offsetX ∧ 0 ≤ c10wexpected.position.offsetY :=
  c10_offsets_nonneg (lex c10winput) ⟨[c10wexpected]⟩ (by decide) (by decide)
    c10wexpected (List.mem_singleton_self c10wexpected)

/-- Auxiliary: with whitespace skipping off, `scan` pops the head token
verbatim. -/
theorem scan_false_cons (t : Token) (ts : List Token) (cur : Token) :
    scan ⟨t :: ts, cur, false⟩ = ⟨ts, t, false⟩ := by
  simp [scan, scanAux]

/-- Auxiliary: with whitespace skipping off, `scan` at end of input yields
the end-of-input token. -/
theorem scan_false_nil (cur : Token) :
    scan ⟨[], cur, false⟩ = ⟨[], eofToken, false⟩ := by
  simp [scan, scanAux]

/-- Auxiliary: the value loop consumes the line up to its terminator and
appends every literal on it. -/
theorem propValueLoop_spec (vs : List Token) :
    ∀ (fuel : Nat) (value : String) (cur : Token) (after : List Token),
      (∀ t ∈ vs, t.type ≠ TokenType.LineTerminator) →
      vs.length + 1 ≤ fuel →
      propValueLoop fuel value ⟨vs ++ nlTok :: after, cur, false⟩ =
        PRes.ok (value ++ litsOf vs, ⟨after, nlTok, false⟩) := by
  induction vs with
  | nil =>
    intro fuel value cur after _ hf
    cases fuel with
    | zero => simp at hf
    | succ n =>
      unfold propValueLoop
      rw [List.nil_append, scan_false_cons]
      simp [litsOf, nlTok]
  | cons v vs ih =>
    intro fuel value cur after hall hf
    cases fuel with
    | zero => simp at hf
    | succ n =>
      unfold propValueLoop
      rw [List.cons_append, scan_false_cons]
      dsimp only
      rw [if_neg (by exact hall v (List.mem_cons_self v vs))]
      rw [ih n (value ++ v.literal) v after
        (fun t ht => hall t (List.mem_cons_of_mem v ht))
        (by simpa using Nat.succ_le_succ_iff.mp hf)]
      rw [litsOf, String.append_assoc]

/-- Auxiliary: the line-skipping loop consumes the line up to its
terminator. -/
theorem propSkipLineLoop_spec (vs : List Token) :
    ∀ (fuel : Nat) (cur : Token) (after : List Token),
      (∀ t ∈ vs, t.type ≠ TokenType.LineTerminator) →
      vs.length + 1 ≤ fuel →
      propSkipLineLoop fuel ⟨vs ++ nlTok :: after, cur, false⟩ =
        PRes.ok ⟨after, nlTok, false⟩ := by
  induction vs with
  | nil =>
    intro fuel cur after _ hf
    cases fuel with
    | zero => simp at hf
    | succ n =>
      unfold propSkipLineLoop
      rw [List.nil_append, scan_false_cons]
      simp [nlTok]
  | cons v vs ih =>
    intro fuel cur after hall hf
    cases fuel with
    | zero => simp at hf
    | succ n =>
      unfold propSkipLineLoop
      rw [List.cons_append, scan_false_cons]
      dsimp only
      rw [if_neg (by exact hall v (List.mem_cons_self v vs))]
      exact ih n v after (fun t ht => hall t (List.mem_cons_of_mem v ht))
        (by simpa using Nat.succ_le_succ_iff.mp hf)

/-- Auxiliary: unfolding of the continuation-line stream. -/
theorem contFlat_cons (cs : List Token) (conts : List (List Token)) :
    contFlat (cs :: conts) = tabTok :: tabTok :: (cs ++ nlTok :: contFlat conts) := by
  simp [contFlat, List.cons_append, List.append_assoc]

/-- Auxiliary: the continuation-line stream has at least one token per
line. -/
theorem contFlat_length (conts : List (List Token)) :
    conts.length ≤ (contFlat conts).length := by
  induction conts with
  | nil => simp [contFlat]
  | cons cs conts ih =>
    rw [contFlat_cons]
    simp only [List.length_cons, List.length_append]
    omega

/-- Auxiliary: the skipping continuation loop consumes every
doubly-tab-indented line, discards its content, and stops at the first
non-tab token. -/
theorem propSkipContLoop_spec (conts : List (List Token)) :
    ∀ (fuel : Nat) (cur : Token) (rest : List Token),
      (∀ cs ∈ conts, ∀ t ∈ cs, t.type ≠ TokenType.LineTerminator) →
      headNotTab rest →
      conts.length + 1 ≤ fuel →
      propSkipContLoop fuel ⟨contFlat conts ++ rest, cur, false⟩ =
        PRes.ok (popState rest) := by
  induction conts with
  | nil =>
    intro fuel cur rest _ hrest hf
    cases fuel with
    | zero => simp at hf
    | succ n =>
      unfold propSkipContLoop
      rw [show contFlat ([] : List (List Token)) = [] from rfl, List.nil_append]
      cases rest with
      | nil =>
        rw [scan_false_nil]
        dsimp only
        rw [if_pos (by simp [isTab, eofToken])]
        rfl
      | cons r rs =>
        rw [scan_false_cons]
        dsimp only
        rw [if_pos (show ¬ isTab r from hrest)]
        rfl
  | cons cs conts ih =>
    intro fuel cur rest hconts hrest hf
    cases fuel with
    | zero => simp at hf
    | succ n =>
      unfold propSkipContLoop
      rw [contFlat_cons]
      simp only [List.cons_append, List.append_assoc]
      rw [scan_false_cons]
      dsimp only
      rw [if_neg (by simp [isTab, tabTok])]
      rw [scan_false_cons]
      dsimp only
      rw [if_neg (by simp [isTab, tabTok])]
      rw [propSkipLineLoop_spec cs _ tabTok (contFlat conts ++ rest)
        (hconts cs (List.mem_cons_self cs conts))
        (by simp only [PState.mk.injEq, List.length_append, List.length_cons]
            omega)]
      exact ih n nlTok rest
        (fun c hc => hconts c (List.mem_cons_of_mem cs hc)) hrest
        (by simpa using Nat.succ_le_succ_iff.mp hf)

/-- Auxiliary: the appending continuation loop consumes every
doubly-tab-indented line, appends its content to the value, and stops at the
first non-tab token. -/
theorem propContValueLoop_spec (conts : List (List Token)) :
    ∀ (fuel : Nat) (value : String) (cur : Token) (rest : List Token),
      (∀ cs ∈ conts, ∀ t ∈ cs, t.type ≠ TokenType.LineTerminator) →
      headNotTab rest →
      conts.length + 1 ≤ fuel →
      propContValueLoop fuel value ⟨contFlat conts ++ rest, cur, false⟩ =
        PRes.ok (value ++ contLits conts, popState rest) := by
  induction conts with
  | nil =>
    intro fuel value cur rest _ hrest hf
    cases fuel with
    | zero => simp at hf
    | succ n =>
      unfold propContValueLoop
      rw [show contFlat ([] : List (List Token)) = [] from rfl, List.nil_append]
      cases rest with
      | nil =>
        rw [scan_false_nil]
        dsimp only
        rw [if_pos (by simp [isTab, eofToken])]
        simp [contLits, popState]
      | cons r rs =>
        rw [scan_false_cons]
        dsimp only
        rw [if_pos (show ¬ isTab r from hrest)]
        simp [contLits, popState]
  | cons cs conts ih =>
    intro fuel value cur rest hconts hrest hf
    cases fuel with
    | zero => simp at hf
    | succ n =>
      unfold propContValueLoop
      rw [contFlat_cons]
      simp only [List.cons_append, List.append_assoc]
      rw [scan_false_cons]
      dsimp only
      rw [if_neg (by simp [isTab, tabTok])]
      rw [scan_false_cons]
      dsimp only
      rw [if_neg (by simp [isTab, tabTok])]
      rw [propValueLoop_spec cs _ value tabTok (contFlat conts ++ rest)
        (hconts cs (List.mem_cons_self cs conts))
        (by simp only [PState.mk.injEq, List.length_append, List.length_cons]
            omega)]
      dsimp only
      rw [ih n (value ++ litsOf cs) nlTok rest
        (fun c hc => hconts c (List.mem_cons_of_mem cs hc)) hrest
        (by simpa using Nat.succ_le_succ_iff.mp hf)]
      rw [contLits, String.append_assoc]

/-- Auxiliary: the name loop stops immediately on a colon punctuator. -/
theorem propNameLoop_colon (fuel : Nat) (name : String) (s : PState)
    (hf : fuel ≠ 0)
    (h : s.cur.type = TokenType.Punctuator ∧ s.cur.literal = ":") :
    propNameLoop fuel name s = PRes.ok (name, s) := by
  cases fuel with
  | zero => exact absurd rfl hf
  | succ n =>
    unfold propNameLoop
    rw [if_pos h]

/-- Auxiliary: `parseProperty` on an inline-valued property line followed by
doubly-tab-indented continuation lines stores only the first line's trimmed
value; the continuation content is consumed but discarded. -/
theorem parseProperty_inline_spec (o : Output) (nm : String) (v0 : Token)
    (vrest : List Token) (conts : List (List Token)) (rest : List Token)
    (hv0 : v0.type = TokenType.Name ∨ v0.type = TokenType.IntValue ∨
      v0.type = TokenType.FloatValue)
    (hvrest : ∀ t ∈ vrest, t.type ≠ TokenType.LineTerminator)
    (hconts : ∀ cs ∈ conts, ∀ t ∈ cs, t.type ≠ TokenType.LineTerminator)
    (hrest : headNotTab rest) :
    parseProperty o
        ⟨colonTok :: spTok :: v0 :: vrest ++ nlTok :: contFlat conts ++ rest,
          nameTok nm, false⟩ =
      PRes.ok ({ o with
          properties :=
            insertProp nm.trim (v0.literal ++ litsOf vrest).trim o.properties },
        popState rest) := by
  have hnlt : ¬ v0.type = TokenType.LineTerminator := by
    rcases hv0 with h | h | h <;> rw [h] <;> decide
  unfold parseProperty
  have e1 : expectT TokenType.Name
      ⟨colonTok :: spTok :: v0 :: vrest ++ nlTok :: contFlat conts ++ rest,
        nameTok nm, false⟩ =
      (Except.ok (nameTok nm),
        ⟨spTok :: v0 :: vrest ++ nlTok :: contFlat conts ++ rest,
          colonTok, false⟩) := by
    simp [expectT, nameTok, scan, scanAux]
  rw [e1]
  dsimp only [nameTok]
  rw [propNameLoop_colon _ _ _ (by simp) ⟨rfl, rfl⟩]
  dsimp only
  have e3 : skipWithLiteral TokenType.Punctuator ":"
      ⟨spTok :: v0 :: vrest ++ nlTok :: contFlat conts ++ rest,
        colonTok, false⟩ =
      (none, ⟨v0 :: vrest ++ nlTok :: contFlat conts ++ rest,
        spTok, false⟩) := by
    simp [skipWithLiteral, skipT, colonTok, scan, scanAux, spTok]
  rw [e3]
  dsimp only
  have e4 : skipWithLiteral TokenType.WhiteSpace " "
      ⟨v0 :: vrest ++ nlTok :: contFlat conts ++ rest, spTok, false⟩ =
      (none, ⟨vrest ++ nlTok :: contFlat conts ++ rest, v0, false⟩) := by
    simp [skipWithLiteral, skipT, spTok, scan, scanAux]
  rw [e4]
  dsimp only
  rw [if_neg hnlt, if_pos hv0]
  simp only [List.cons_append, List.append_assoc]
  rw [propValueLoop_spec vrest _ v0.literal v0 (contFlat conts ++ rest) hvrest
    (by simp only [List.length_append, List.length_cons]
        omega)]
  dsimp only
  rw [propSkipContLoop_spec conts _ nlTok rest hconts hrest
    (by have := contFlat_length conts
        simp only [List.length_append]
        omega)]

/-- Auxiliary: `parseProperty` on a property whose value starts with a line
terminator appends the content of every doubly-tab-indented continuation
line to the stored value. -/
theorem parseProperty_nl_spec (o : Output) (nm : String)
    (conts : List (List Token)) (rest : List Token)
    (hconts : ∀ cs ∈ conts, ∀ t ∈ cs, t.type ≠ TokenType.LineTerminator)
    (hrest : headNotTab rest) :
    parseProperty o
        ⟨colonTok :: spTok :: nlTok :: contFlat conts ++ rest,
          nameTok nm, false⟩ =
      PRes.ok ({ o with
          properties := insertProp nm.trim (contLits conts).trim o.properties },
        popState rest) := by
  unfold parseProperty
  have e1 : expectT TokenType.Name
      ⟨colonTok :: spTok :: nlTok :: contFlat conts ++ rest,
        nameTok nm, false⟩ =
      (Except.ok (nameTok nm),
        ⟨spTok :: nlTok :: contFlat conts ++ rest, colonTok, false⟩) := by
    simp [expectT, nameTok, scan, scanAux]
  rw [e1]
  dsimp only [nameTok]
  rw [propNameLoop_colon _ _ _ (by simp) ⟨rfl, rfl⟩]
  dsimp only
  have e3 : skipWithLiteral TokenType.Punctuator ":"
      ⟨spTok :: nlTok :: contFlat conts ++ rest, colonTok, false⟩ =
      (none, ⟨nlTok :: contFlat conts ++ rest, spTok, false⟩) := by
    simp [skipWithLiteral, skipT, colonTok, scan, scanAux, spTok]
  rw [e3]
  dsimp only
  have e4 : skipWithLiteral TokenType.WhiteSpace " "
      ⟨nlTok :: contFlat conts ++ rest, spTok, false⟩ =
      (none, ⟨contFlat conts ++ rest, nlTok, false⟩) := by
    simp [skipWithLiteral, skipT, spTok, scan, scanAux]
  rw [e4]
  dsimp only
  rw [if_pos (show (nlTok).type = TokenType.LineTerminator from rfl)]
  rw [propContValueLoop_spec conts _ "" nlTok rest hconts hrest
    (by have := contFlat_length conts
        simp only [List.length_append]
        omega)]
  rfl

/-- C8: in `parseProperty`, when the value starts inline on the colon line
(first token after the colon-space a Name, IntValue or FloatValue), the
stored value is exactly the trimmed concatenation of that line's token
literals and the content of any doubly-tab-indented continuation lines is
consumed but discarded; when the value starts with a line terminator, the
stored value is the trimmed concatenation of the continuation lines'
content. -/
theorem c8_property_value_continuation (o : Output) (nm : String) (v0 : Token)
    (vrest : List Token) (conts : List (List Token)) (rest : List Token)
    (hconts : ∀ cs ∈ conts, ∀ t ∈ cs, t.type ≠ TokenType.LineTerminator)
    (hrest : headNotTab rest) :
    ((v0.type = TokenType.Name ∨ v0.type = TokenType.IntValue ∨
        v0.type = TokenType.FloatValue) →
      (∀ t ∈ vrest, t.type ≠ TokenType.LineTerminator) →
      parseProperty o
          ⟨colonTok :: spTok :: v0 :: vrest ++ nlTok :: contFlat conts ++ rest,
            nameTok nm, false⟩ =
        PRes.ok ({ o with
            properties :=
              insertProp nm.trim (v0.literal ++ litsOf vrest).trim
                o.properties },
          popState rest)) ∧
    parseProperty o
        ⟨colonTok :: spTok :: nlTok :: contFlat conts ++ rest,
          nameTok nm, false⟩ =
      PRes.ok ({ o with
          properties := insertProp nm.trim (contLits conts).trim o.properties },
        popState rest) :=
  ⟨fun hv0 hvrest =>
      parseProperty_inline_spec o nm v0 vrest conts rest hv0 hvrest hconts hrest,
    parseProperty_nl_spec o nm conts rest hconts hrest⟩

/-- C8 (witness): both branches at a concrete Brightness-style property with
two continuation lines. -/
theorem c8_witness :
    parseProperty defOutput
        ⟨colonTok :: spTok :: (⟨TokenType.FloatValue, "1.000000", 0, 0⟩ : Token) ::
            [] ++ nlTok :: contFlat [[nameTok "junkA"], [nameTok "junkB"]] ++ [],
          nameTok "Brightness", false⟩ =
      PRes.ok ({ defOutput with
          properties :=
            insertProp "Brightness".trim
              (("1.000000" ++ litsOf [])).trim defOutput.properties },
        popState []) ∧
    parseProperty defOutput
        ⟨colonTok :: spTok :: nlTok ::
            contFlat [[nameTok "junkA"], [nameTok "junkB"]] ++ [],
          nameTok "Brightness", false⟩ =
      PRes.ok ({ defOutput with
          properties :=
            insertProp "Brightness".trim
              (contLits [[nameTok "junkA"], [nameTok "junkB"]]).trim
              defOutput.properties },
        popState []) :=
  ⟨(c8_property_value_continuation defOutput "Brightness"
      ⟨TokenType.FloatValue, "1.000000", 0, 0⟩ []
      [[nameTok "junkA"], [nameTok "junkB"]] [] (by decide) trivial).1
      (by decide) (by decide),
    (c8_property_value_continuation defOutput "Brightness"
      ⟨TokenType.FloatValue, "1.000000", 0, 0⟩ []
      [[nameTok "junkA"], [nameTok "junkB"]] [] (by decide) trivial).2⟩
